import Mathlib

/-!
# Verification of the putt-tracking backend

Shallow embedding of the statistics code of the `proofofputt/backend`
repository, together with proofs about it.

The embedding covers:
* `calculate_consecutive_streaks` (src/data_manager.py),
* `get_career_stats` and its helpers `_aggregate_session_makes` and
  `_aggregate_session_misses` (src/data_manager.py),
* `recalculate_player_stats` and the `fastest_21_makes` handling of
  `update_session` (src/data_manager.py),
* the per-frame tracking loop of `main` (src/run_tracker.py).

Python floats are modelled as rationals; the `float('inf')` sentinel is a
dedicated constructor of `PyFloat`.  JSON parsing (`json.loads`) is
abstracted: functions receive the outcome of parsing (a `JValue`, a decode
error, or a falsy input), never the raw character stream.  Database reads
are modelled as projections of an explicit `DBState`.
-/

/-! ## Python-style string helpers

Python string operations used by the code, implemented structurally over
the character list of a `String` so that they evaluate inside the kernel. -/

/-- `matchesAt pat s`: `pat` occurs at the very start of `s`. -/
def matchesAt : List Char → List Char → Bool
  | [], _ => true
  | _ :: _, [] => false
  | a :: as, b :: bs => a == b && matchesAt as bs

/-- Python's `needle in hay` on strings: `needle` occurs contiguously in `hay`. -/
def containsSeq : List Char → List Char → Bool
  | [], needle => needle.isEmpty
  | c :: rest, needle => matchesAt needle (c :: rest) || containsSeq rest needle

/-- Python `needle in hay` (substring containment). -/
def pyInStr (needle hay : String) : Bool :=
  containsSeq hay.data needle.data

/-- Python `str.upper` (on the ASCII data this code handles). -/
def pyUpper (s : String) : String :=
  ⟨s.data.map Char.toUpper⟩

/-- Python `s.startswith(pat)`. -/
def pyStartsWith (s pat : String) : Bool :=
  matchesAt pat.data s.data

/-- One fuel-indexed step of Python `str.replace`: replace every
non-overlapping occurrence of `pat` (assumed non-empty) by `rep`, scanning
left to right.  The fuel is an upper bound on the number of characters
consumed; `s.length` always suffices because every step consumes at least
one character. -/
def replaceAux (pat rep : List Char) : ℕ → List Char → List Char
  | 0, s => s
  | _ + 1, [] => []
  | fuel + 1, c :: rest =>
      if matchesAt pat (c :: rest) then
        rep ++ replaceAux pat rep fuel (List.drop (pat.length - 1) rest)
      else
        c :: replaceAux pat rep fuel rest

/-- Python `s.replace(pat, rep)` for a non-empty pattern. -/
def pyReplace (s pat rep : String) : String :=
  ⟨replaceAux pat.data rep.data s.data.length s.data⟩

/-! ## Python floats with the infinity sentinel -/

/-- A Python float as this code uses it: a finite value or `float('inf')`. -/
inductive PyFloat where
  | fin (q : ℚ)
  | inf
deriving DecidableEq

/-- Python `min(a, b)` where `a` may be the `float('inf')` sentinel and `b`
is finite.  The result is always finite. -/
def PyFloat.pymin (a : PyFloat) (b : ℚ) : PyFloat :=
  match a with
  | .inf => .fin b
  | .fin q => .fin (min q b)

/-! ## JSON values

The result of `json.loads`, as far as the embedded code inspects it. -/

/-- A parsed JSON value (also standing for the Python object it decodes to). -/
inductive JValue where
  | jnull
  | jbool (b : Bool)
  | jnum (q : ℚ)
  | jstr (s : String)
  | jarr (items : List JValue)
  | jobj (fields : List (String × JValue))

/-- Python error kinds the embedded fragments can raise. -/
inductive PyErr where
  | attributeError
  | typeError
deriving DecidableEq

/-- `dict.get key` on a parsed JSON object.  `json.loads` keeps the last
binding of a duplicated key, so lookup returns the last match. -/
def jsonGet (fields : List (String × JValue)) (key : String) : Option JValue :=
  match fields with
  | [] => none
  | (k, v) :: rest =>
      match jsonGet rest key with
      | some w => some w
      | none => if k = key then some v else none

/-- Python `for x in v` over a decoded JSON value: lists yield their
elements, strings their characters (as one-character strings), dicts their
keys; every other value raises `TypeError`. -/
def pyIter : JValue → Except PyErr (List JValue)
  | .jarr xs => .ok xs
  | .jstr s => .ok (s.data.map fun c => .jstr ⟨[c]⟩)
  | .jobj fields => .ok (fields.map fun kv => .jstr kv.1)
  | _ => .error .typeError

/-! ## calculate_consecutive_streaks (src/data_manager.py)

```python
categories = [3, 7, 10, 15, 21, 50, 100]
streak_counts = {str(c): 0 for c in categories}
if not putt_list_json:
    return streak_counts
try:
    putt_list = json.loads(putt_list_json)
except json.JSONDecodeError:
    return streak_counts
streaks = []
current_streak = 0
for putt in putt_list:
    if putt.get('Putt Classification', '').upper() == 'MAKE':
        current_streak += 1
    else:
        if current_streak > 0:
            streaks.append(current_streak)
        current_streak = 0
if current_streak > 0:
    streaks.append(current_streak)
for streak in streaks:
    for category in categories:
        if streak >= category:
            streak_counts[str(category)] += streak // category
return streak_counts
```
-/

/-- The argument of `calculate_consecutive_streaks` after the falsy check
and `json.loads`: `falsy` is `None` or the empty string, `badJson` a string
on which `json.loads` raises `JSONDecodeError`, `parsed v` a successfully
decoded value.  Parsing itself is abstracted. -/
inductive PuttListJson where
  | falsy
  | badJson
  | parsed (v : JValue)

def streakCategories : List ℕ := [3, 7, 10, 15, 21, 50, 100]

/-- `{str(c): 0 for c in categories}`, as an insertion-ordered dict. -/
def initStreakCounts : List (String × ℕ) :=
  streakCategories.map fun c => (toString c, 0)

/-- `putt.get('Putt Classification', '').upper()`, with Python's errors:
`.get` on a non-dict raises `AttributeError`, `.upper()` on a non-string
value raises `AttributeError`. -/
def puttClassUpper (p : JValue) : Except PyErr String :=
  match p with
  | .jobj fields =>
      match jsonGet fields "Putt Classification" with
      | none => .ok (pyUpper "")
      | some (.jstr s) => .ok (pyUpper s)
      | some _ => .error .attributeError
  | _ => .error .attributeError

/-- The first loop of `calculate_consecutive_streaks`: the lengths of the
maximal runs of `MAKE`-classified putts, in order, threading the running
`current_streak` counter. -/
def collectStreaks : List JValue → ℕ → Except PyErr (List ℕ)
  | [], cur => .ok (if 0 < cur then [cur] else [])
  | p :: rest, cur => do
      let s ← puttClassUpper p
      if s = "MAKE" then
        collectStreaks rest (cur + 1)
      else
        let tail ← collectStreaks rest 0
        .ok ((if 0 < cur then [cur] else []) ++ tail)

/-- In-place update of an insertion-ordered dict at an existing key
(Python dict update keeps the position of the key). -/
def bumpKey (counts : List (String × ℕ)) (key : String) (d : ℕ) : List (String × ℕ) :=
  counts.map fun kv => if kv.1 = key then (kv.1, kv.2 + d) else kv

/-- The inner loop of the second pass: for one streak, add
`streak // category` to every category with `category ≤ streak`. -/
def addStreakCounts (counts : List (String × ℕ)) (streak : ℕ) : List (String × ℕ) :=
  streakCategories.foldl
    (fun acc c => if c ≤ streak then bumpKey acc (toString c) (streak / c) else acc)
    counts

/-- `calculate_consecutive_streaks` (src/data_manager.py). -/
def calculate_consecutive_streaks (input : PuttListJson) :
    Except PyErr (List (String × ℕ)) :=
  match input with
  | .falsy => .ok initStreakCounts
  | .badJson => .ok initStreakCounts
  | .parsed v => do
      let putts ← pyIter v
      let streaks ← collectStreaks putts 0
      .ok (streaks.foldl addStreakCounts initStreakCounts)

/-! ### Specification-side view of the streak computation -/

/-- A putt record that the function can process without raising: a JSON
object whose `Putt Classification`, when present, is a string. -/
def wfPutt (p : JValue) : Bool :=
  match p with
  | .jobj fields =>
      match jsonGet fields "Putt Classification" with
      | none => true
      | some (.jstr _) => true
      | some _ => false
  | _ => false

/-- The uppercased classification string of a well-formed putt record
(the default `''` when the key is absent). -/
def classUpperOf (p : JValue) : String :=
  match p with
  | .jobj fields =>
      match jsonGet fields "Putt Classification" with
      | some (.jstr s) => pyUpper s
      | _ => ""
  | _ => ""

/-- Whether a putt record counts as a make: its classification uppercases
to `"MAKE"`. -/
def makeFlag (p : JValue) : Bool :=
  classUpperOf p = "MAKE"

/-- The lengths of the maximal runs of `true` in a boolean sequence,
stated independently of the code: split the sequence at every `false` and
keep the lengths of the non-empty pieces. -/
def runsSpec (flags : List Bool) : List ℕ :=
  ((flags.splitOnP fun b => !b).map List.length).filter fun n => 0 < n

/-- Pure counterpart of `collectStreaks` on the make/miss flag sequence. -/
def runsPure : List Bool → ℕ → List ℕ
  | [], cur => if 0 < cur then [cur] else []
  | b :: rest, cur =>
      if b then runsPure rest (cur + 1)
      else (if 0 < cur then [cur] else []) ++ runsPure rest 0

/-- A list of 21 putt records all classified MAKE. -/
def putts21 : List JValue :=
  List.replicate 21 (.jobj [("Putt Classification", .jstr "MAKE")])

/-! ## get_career_stats (src/data_manager.py)

The session dictionaries consumed by `get_career_stats` are modelled as
`SessionRow`: database columns that can be `NULL` are `Option`s, and the
three JSON text columns (`makes_by_category`, `misses_by_category`,
`putt_list`) are stored pre-parsed, with `none` standing for an
absent/falsy column or a column whose `json.loads` raises — both cases the
code handles identically, by skipping the field
(`except (json.JSONDecodeError, TypeError): pass`).
`consecutive_by_category` is the dictionary that `get_sessions_for_player`
attaches to every row by running `calculate_consecutive_streaks` on the
raw putt list. -/

structure PlayerInfo where
  name : String
  subscription_status : Option String
deriving DecidableEq

structure PlayerStatsRow where
  total_makes : ℕ
  total_misses : ℕ
  best_streak : ℕ
  fastest_21_makes : Option ℚ
deriving DecidableEq

/-- One entry of a parsed putt list, as far as the aggregation reads it. -/
structure PuttRec where
  classification : Option String
  detailed : Option String
deriving DecidableEq

structure SessionRow where
  status : String
  total_makes : Option ℕ
  total_misses : Option ℕ
  best_streak : Option ℕ
  fastest_21_makes : Option ℚ
  session_duration : Option ℚ
  putts_per_minute : Option ℚ
  makes_per_minute : Option ℚ
  most_makes_in_60_seconds : Option ℕ
  makes_by_category : Option (List (String × ℚ))
  misses_by_category : Option (List (String × ℚ))
  putt_list : Option (List PuttRec)
  consecutive_by_category : List (String × ℕ)
deriving DecidableEq

/-- A `{high, sum}` cell of the makes breakdown. -/
structure MakeCell where
  high : ℚ
  sum : ℚ
deriving DecidableEq

/-- A `{low, high, sum}` cell of the misses breakdown during aggregation;
`low` starts as the `float('inf')` sentinel. -/
structure MissCellQ where
  low : PyFloat
  high : ℚ
  sum : ℚ
deriving DecidableEq

/-- A misses cell after the final cleanup pass replaced a remaining
`float('inf')` by `None`. -/
structure MissCellOut where
  low : Option PyFloat
  high : ℚ
  sum : ℚ
deriving DecidableEq

def initMissCell : MissCellQ := { low := .inf, high := 0, sum := 0 }

/-- `low = min(low, count); high = max(high, count); sum += count`. -/
def bumpMissCell (c : MissCellQ) (count : ℚ) : MissCellQ :=
  { low := c.low.pymin count, high := max c.high count, sum := c.sum + count }

/-- `if low == float('inf'): low = None`. -/
def cleanupCell (c : MissCellQ) : MissCellOut :=
  { low := if c.low = .inf then none else some c.low, high := c.high, sum := c.sum }

/-- The fixed four-category misses overview. -/
structure MissesOverview where
  returnCell : MissCellQ
  catchCell : MissCellQ
  timeoutCell : MissCellQ
  quickPuttCell : MissCellQ
deriving DecidableEq

structure MissesOverviewOut where
  returnCell : MissCellOut
  catchCell : MissCellOut
  timeoutCell : MissCellOut
  quickPuttCell : MissCellOut
deriving DecidableEq

def initMissesOverview : MissesOverview :=
  ⟨initMissCell, initMissCell, initMissCell, initMissCell⟩

/-- `if cat in career_stats["misses_overview"]: …` — only the four fixed
keys are updated, any other key is ignored. -/
def updMissesOverview (mo : MissesOverview) (cat : String) (count : ℚ) : MissesOverview :=
  if cat = "RETURN" then { mo with returnCell := bumpMissCell mo.returnCell count }
  else if cat = "CATCH" then { mo with catchCell := bumpMissCell mo.catchCell count }
  else if cat = "TIMEOUT" then { mo with timeoutCell := bumpMissCell mo.timeoutCell count }
  else if cat = "QUICK PUTT" then { mo with quickPuttCell := bumpMissCell mo.quickPuttCell count }
  else mo

def cleanupOverview (mo : MissesOverview) : MissesOverviewOut :=
  ⟨cleanupCell mo.returnCell, cleanupCell mo.catchCell,
   cleanupCell mo.timeoutCell, cleanupCell mo.quickPuttCell⟩

/-- The fixed four-quadrant makes overview (`{high, sum}` only). -/
structure MakesOverview where
  top : MakeCell
  right : MakeCell
  low : MakeCell
  left : MakeCell
deriving DecidableEq

def initMakesOverview : MakesOverview := ⟨⟨0, 0⟩, ⟨0, 0⟩, ⟨0, 0⟩, ⟨0, 0⟩⟩

/-- Python-dict upsert: update the value in place when the key exists,
otherwise append `(k, f dflt)` at the end (insertion order). -/
def dictUpd {β : Type} (m : List (String × β)) (k : String) (dflt : β) (f : β → β) :
    List (String × β) :=
  if m.any fun kv => decide (kv.1 = k) then
    m.map fun kv => if kv.1 = k then (kv.1, f kv.2) else kv
  else m ++ [(k, f dflt)]

/-- The per-session overview counters of `_aggregate_session_makes`. -/
structure OvCounts where
  top : ℚ
  right : ℚ
  low : ℚ
  left : ℚ
deriving DecidableEq

/-- `_aggregate_session_makes` (src/data_manager.py): one pass over the
session's `makes_by_category` items updating the detailed map and the four
substring-bucketed per-session counters, then folding the counters into
the career overview. -/
def aggSessionMakes (m : List (String × ℚ)) (detailed : List (String × MakeCell))
    (overview : MakesOverview) : List (String × MakeCell) × MakesOverview :=
  let st := m.foldl
    (fun (st : List (String × MakeCell) × OvCounts) kv =>
      let det := dictUpd st.1 kv.1 ⟨0, 0⟩
        fun c => { high := max c.high kv.2, sum := c.sum + kv.2 }
      let cnts := st.2
      let cnts := if pyInStr "TOP" kv.1 then { cnts with top := cnts.top + kv.2 } else cnts
      let cnts := if pyInStr "RIGHT" kv.1 then { cnts with right := cnts.right + kv.2 } else cnts
      let cnts := if pyInStr "LOW" kv.1 then { cnts with low := cnts.low + kv.2 } else cnts
      let cnts := if pyInStr "LEFT" kv.1 then { cnts with left := cnts.left + kv.2 } else cnts
      (det, cnts))
    (detailed, ⟨0, 0, 0, 0⟩)
  (st.1,
    { top := { sum := overview.top.sum + st.2.top, high := max overview.top.high st.2.top }
      right := { sum := overview.right.sum + st.2.right, high := max overview.right.high st.2.right }
      low := { sum := overview.low.sum + st.2.low, high := max overview.low.high st.2.low }
      left := { sum := overview.left.sum + st.2.left, high := max overview.left.high st.2.left } })

/-- `putt.get('Putt Detailed Classification', 'UNKNOWN').replace('MISS - ', '')`. -/
def missDetailOf (p : PuttRec) : String :=
  pyReplace (p.detailed.getD "UNKNOWN") "MISS - " ""

/-- The per-session counting dict `s_misses_detailed` of
`_aggregate_session_misses`. -/
def sessionMissCounts (pl : List PuttRec) : List (String × ℕ) :=
  ((pl.filter fun p => decide (p.classification = some "MISS")).map missDetailOf).foldl
    (fun d detail => dictUpd d detail 0 (· + 1)) []

/-- `_aggregate_session_misses` (src/data_manager.py). -/
def aggSessionMisses (pl : List PuttRec) (detailed : List (String × MissCellQ)) :
    List (String × MissCellQ) :=
  (sessionMissCounts pl).foldl
    (fun d kv => dictUpd d kv.1 initMissCell fun c => bumpMissCell c (kv.2 : ℚ)) detailed

def initConsecutive : List (String × ℕ × ℕ) :=
  streakCategories.map fun c => (toString c, (0, 0))

/-- `if cat_str in career_stats["consecutive"]: high = max ..; sum += ..`. -/
def updConsecutive (consec : List (String × ℕ × ℕ)) (kv : String × ℕ) :
    List (String × ℕ × ℕ) :=
  consec.map fun e => if e.1 = kv.1 then (e.1, (max e.2.1 kv.2, e.2.2 + kv.2)) else e

/-- The running state of the per-session loop of `get_career_stats`. -/
structure CareerAcc where
  high_makes : ℕ
  high_ppm : ℚ
  high_mpm : ℚ
  high_most_in_60 : ℕ
  high_duration : ℚ
  total_duration : ℚ
  high_accuracy : ℚ
  consecutive : List (String × ℕ × ℕ)
  makes_overview : MakesOverview
  makes_detailed : List (String × MakeCell)
  misses_overview : MissesOverview
  misses_detailed : List (String × MissCellQ)
deriving DecidableEq

def initCareerAcc : CareerAcc :=
  { high_makes := 0, high_ppm := 0, high_mpm := 0, high_most_in_60 := 0
    high_duration := 0, total_duration := 0, high_accuracy := 0
    consecutive := initConsecutive, makes_overview := initMakesOverview
    makes_detailed := [], misses_overview := initMissesOverview
    misses_detailed := [] }

/-- The body of `for session in sessions:` in `get_career_stats`.
`Option.getD 0` models `session.get(key, 0) or 0`. -/
def careerStep (acc : CareerAcc) (s : SessionRow) : CareerAcc :=
  let s_makes := s.total_makes.getD 0
  let s_misses := s.total_misses.getD 0
  let duration := s.session_duration.getD 0
  let acc := { acc with
    high_makes := max acc.high_makes s_makes
    high_ppm := max acc.high_ppm (s.putts_per_minute.getD 0)
    high_mpm := max acc.high_mpm (s.makes_per_minute.getD 0)
    high_most_in_60 := max acc.high_most_in_60 (s.most_makes_in_60_seconds.getD 0)
    high_duration := max acc.high_duration duration
    total_duration := acc.total_duration + duration }
  let s_accuracy := ((s_makes : ℚ) / ((s_makes : ℚ) + (s_misses : ℚ))) * 100
  let acc := if 0 < s_makes + s_misses then
      { acc with high_accuracy := max acc.high_accuracy s_accuracy }
    else acc
  let acc := match s.makes_by_category with
    | none => acc
    | some m =>
        let r := aggSessionMakes m acc.makes_detailed acc.makes_overview
        { acc with makes_detailed := r.1, makes_overview := r.2 }
  let acc := match s.misses_by_category with
    | none => acc
    | some m =>
        let mo := m.foldl (fun mo (kv : String × ℚ) => updMissesOverview mo kv.1 kv.2)
          acc.misses_overview
        { acc with misses_overview := mo }
  let consec := s.consecutive_by_category.foldl updConsecutive acc.consecutive
  let acc := { acc with consecutive := consec }
  match s.putt_list with
  | none => acc
  | some pl => { acc with misses_detailed := aggSessionMisses pl acc.misses_detailed }

/-- The career summary dictionary returned by `get_career_stats` (the
fields derived from the statistics tables; duel/league counts are kept as
the four numbers the code computes). -/
structure CareerStats where
  player_id : ℕ
  name : String
  high_makes : ℕ
  sum_makes : ℕ
  high_best_streak : ℕ
  low_fastest_21 : Option ℚ
  high_ppm : ℚ
  avg_ppm : ℚ
  high_mpm : ℚ
  avg_mpm : ℚ
  high_most_in_60 : ℕ
  high_duration : ℚ
  sum_duration : ℚ
  high_accuracy : ℚ
  avg_accuracy : ℚ
  consecutive : List (String × ℕ × ℕ)
  makes_overview : MakesOverview
  makes_detailed : List (String × MakeCell)
  misses_overview : MissesOverviewOut
  misses_detailed : List (String × MissCellOut)
  duel_active : ℕ
  duel_complete : ℕ
  league_active : ℕ
  league_complete : ℕ
  is_subscribed : Bool
deriving DecidableEq

/-- The pure computation of `get_career_stats` over the materialized rows.
The code guards the average computations twice (`total_duration_seconds >
0` outside, `total_duration_minutes > 0` inside); over ℚ the two
conditions coincide, so a single conditional models both. -/
def computeCareerStats (player_id : ℕ) (info : PlayerInfo) (stats : Option PlayerStatsRow)
    (sessions : List SessionRow) (duelStatuses : List String)
    (leagueStatuses : List String) : CareerStats :=
  let ps := stats.getD ⟨0, 0, 0, none⟩
  let acc := sessions.foldl careerStep initCareerAcc
  let total_putts := ps.total_makes + ps.total_misses
  { player_id := player_id
    name := info.name
    high_makes := acc.high_makes
    sum_makes := ps.total_makes
    high_best_streak := ps.best_streak
    low_fastest_21 := ps.fastest_21_makes
    high_ppm := acc.high_ppm
    avg_ppm := if 0 < acc.total_duration then
        (total_putts : ℚ) / (acc.total_duration / 60) else 0
    high_mpm := acc.high_mpm
    avg_mpm := if 0 < acc.total_duration then
        (ps.total_makes : ℚ) / (acc.total_duration / 60) else 0
    high_most_in_60 := acc.high_most_in_60
    high_duration := acc.high_duration
    sum_duration := acc.total_duration
    high_accuracy := acc.high_accuracy
    avg_accuracy := if 0 < total_putts then
        ((ps.total_makes : ℚ) / (total_putts : ℚ)) * 100 else 0
    consecutive := acc.consecutive
    makes_overview := acc.makes_overview
    makes_detailed := acc.makes_detailed
    misses_overview := cleanupOverview acc.misses_overview
    misses_detailed := acc.misses_detailed.map fun kv => (kv.1, cleanupCell kv.2)
    duel_active := (duelStatuses.filter fun st => decide (st = "accepted")).length
    duel_complete := (duelStatuses.filter fun st => decide (st = "completed")).length
    league_active := (leagueStatuses.filter
      fun st => decide (st = "active" ∨ st = "registering")).length
    league_complete := (leagueStatuses.filter fun st => decide (st = "completed")).length
    is_subscribed := info.subscription_status = some "active" }

/-- The database state read by `get_career_stats`, keyed by player id. -/
structure DBState where
  player_info : ℕ → Option PlayerInfo
  player_stats : ℕ → Option PlayerStatsRow
  sessions : ℕ → List SessionRow
  duel_statuses : ℕ → List String
  league_statuses : ℕ → List String

/-- `get_career_stats` (src/data_manager.py): `None` when the player does
not exist, otherwise the aggregated summary. -/
def get_career_stats (db : DBState) (player_id : ℕ) : Option CareerStats :=
  match db.player_info player_id with
  | none => none
  | some info =>
      some (computeCareerStats player_id info (db.player_stats player_id)
        (db.sessions player_id) (db.duel_statuses player_id)
        (db.league_statuses player_id))

/-- `get_career_stats` as a transformer of the database state: its body
issues only SELECT statements (via `get_player_info`, `get_player_stats`,
`get_sessions_for_player`, `get_duels_for_player`,
`get_leagues_for_player`), so the state component is the input state. -/
def get_career_stats_run (db : DBState) (player_id : ℕ) :
    DBState × Option CareerStats :=
  (db, get_career_stats db player_id)

/-! ## The per-frame tracking loop of main (src/run_tracker.py)

One iteration of `while True:` reads a frame, increments `frame_count`,
computes the session-relative time `current_video_time`, submits the frame
to `putt_classifier.update_and_classify`, THEN checks the session time
limit (`if session_duration_limit is not None and current_video_time >=
session_duration_limit: break`), and only afterwards tallies the returned
classification.  The classifier is abstracted as a state-transition
function; each frame carries the `current_video_time` computed for it.
The frame list is the sequence of frames the loop reads (camera failure or
a `q` key-press simply truncate it). -/

structure Frame where
  t : ℚ

structure LoopState (σ : Type) where
  cstate : σ
  frameCount : ℕ
  submittedTimes : List ℚ
  talliedTimes : List ℚ
  total_makes : ℕ
  total_misses : ℕ
  consecutive_makes : ℕ
  max_consecutive_makes : ℕ
  scoring_active : Bool
  stopped : Bool

def initLoopState {σ : Type} (s0 : σ) : LoopState σ :=
  ⟨s0, 0, [], [], 0, 0, 0, 0, false, false⟩

/-- `current_video_time >= session_duration_limit` when a limit is set. -/
def limitHit (limit : Option ℚ) (t : ℚ) : Bool :=
  match limit with
  | none => false
  | some L => decide (L ≤ t)

/-- The `if classification:` block: tally one classified attempt
(`classification.startswith("MAKE")` / `("MISS")`); an absent or empty
classification is falsy and tallies nothing. -/
def tallyClassification {σ : Type} (st : LoopState σ) (t : ℚ) (cls : Option String) :
    LoopState σ :=
  match cls with
  | none => st
  | some c =>
      if c.isEmpty then st
      else
        let st := { st with talliedTimes := st.talliedTimes ++ [t], scoring_active := true }
        if pyStartsWith c "MAKE" then
          { st with
            total_makes := st.total_makes + 1,
            consecutive_makes := st.consecutive_makes + 1,
            max_consecutive_makes := max st.max_consecutive_makes (st.consecutive_makes + 1) }
        else if pyStartsWith c "MISS" then
          { st with total_misses := st.total_misses + 1, consecutive_makes := 0 }
        else st

/-- One iteration of the main loop.  `stopped` records that `break` has
run: later frames are not read, submitted, or tallied. -/
def loopStep {σ : Type} (classify : σ → Frame → σ × Option String) (limit : Option ℚ)
    (st : LoopState σ) (f : Frame) : LoopState σ :=
  if st.stopped then st
  else
    let st := { st with frameCount := st.frameCount + 1 }
    let r := classify st.cstate f
    let st := { st with cstate := r.1, submittedTimes := st.submittedTimes ++ [f.t] }
    if limitHit limit f.t then { st with stopped := true }
    else tallyClassification st f.t r.2

/-- The whole main loop over the frames the capture yields. -/
def runTrackerLoop {σ : Type} (classify : σ → Frame → σ × Option String)
    (limit : Option ℚ) (frames : List Frame) (s0 : σ) : LoopState σ :=
  frames.foldl (loopStep classify limit) (initLoopState s0)

/-! ## recalculate_player_stats and update_session (src/data_manager.py) -/

/-- Python `min(list)` (None for the empty list, where Python would raise —
the code only calls it on a non-empty list). -/
def listMinQ : List ℚ → Option ℚ
  | [] => none
  | x :: xs => some (xs.foldl min x)

/-- `recalculate_player_stats` (src/data_manager.py): full recomputation
over the player's completed sessions; the SQL UPDATE touches only an
existing `player_stats` row.  `max(..., default=0)` over naturals equals a
`foldl max 0`. -/
def recalculate_player_stats (db : DBState) (player_id : ℕ) : DBState :=
  let comp := (db.sessions player_id).filter fun s => decide (s.status = "completed")
  let total_makes := (comp.filterMap fun s => s.total_makes).sum
  let total_misses := (comp.filterMap fun s => s.total_misses).sum
  let best_streak := (comp.filterMap fun s => s.best_streak).foldl max 0
  let fastest := listMinQ (comp.filterMap fun s => s.fastest_21_makes)
  let newStats := fun p =>
    if p = player_id then
      (db.player_stats p).map fun old =>
        { old with
          total_makes := total_makes,
          total_misses := total_misses,
          best_streak := best_streak,
          fastest_21_makes := fastest }
    else db.player_stats p
  { db with player_stats := newStats }

/-- `update_session` (src/data_manager.py):
`fastest_21 = reporter.fastest_21_makes if reporter.fastest_21_makes !=
float('inf') else None` — the value stored in the session row. -/
def update_session_fastest (reporterFastest : PyFloat) : Option ℚ :=
  match reporterFastest with
  | .inf => none
  | .fin q => some q

/-! ## Concrete rows and states used for witnesses and counterexamples -/

/-- A session row with every nullable column NULL and no category data. -/
def emptySession : SessionRow :=
  ⟨"completed", none, none, none, none, none, none, none, none, none, none, none, []⟩

/-- A session whose `misses_by_category` parses to `{"RETURN": 0}`. -/
def zeroReturnSession : SessionRow :=
  { emptySession with misses_by_category := some [("RETURN", 0)] }

/-- A session with one make and one miss and nothing else. -/
def oneOneSession : SessionRow :=
  { emptySession with total_makes := some 1, total_misses := some 1 }

def examplePlayerInfo : PlayerInfo := ⟨"player", none⟩

/-- Sessions of the career-aggregation example: makes {10, 15}, durations
{300 s, 300 s}. -/
def exampleSessionA : SessionRow :=
  { emptySession with
    total_makes := some 10
    total_misses := some 0
    session_duration := some 300 }

def exampleSessionB : SessionRow :=
  { emptySession with
    total_makes := some 15
    total_misses := some 0
    session_duration := some 300 }

/-- Player-stats row consistent with the two example sessions. -/
def examplePlayerStats : PlayerStatsRow := ⟨25, 0, 0, none⟩

/-- A database state with no players. -/
def trivialDB : DBState :=
  ⟨fun _ => none, fun _ => none, fun _ => [], fun _ => [], fun _ => []⟩

/-- A database state with one player (id 1), one stats row and one
completed session. -/
def exampleDB : DBState where
  player_info := fun p => if p = 1 then some examplePlayerInfo else none
  player_stats := fun p => if p = 1 then some examplePlayerStats else none
  sessions := fun p => if p = 1 then [exampleSessionA, exampleSessionB] else []
  duel_statuses := fun _ => []
  league_statuses := fun _ => []

/-- The four fixed misses-overview categories. -/
inductive MissCat where
  | mret
  | mcatch
  | mtimeout
  | mquick
deriving DecidableEq

def missCatKey : MissCat → String
  | .mret => "RETURN"
  | .mcatch => "CATCH"
  | .mtimeout => "TIMEOUT"
  | .mquick => "QUICK PUTT"

def overviewCell (mo : MissesOverview) : MissCat → MissCellQ
  | .mret => mo.returnCell
  | .mcatch => mo.catchCell
  | .mtimeout => mo.timeoutCell
  | .mquick => mo.quickPuttCell

def overviewCellOut (mo : MissesOverviewOut) : MissCat → MissCellOut
  | .mret => mo.returnCell
  | .mcatch => mo.catchCell
  | .mtimeout => mo.timeoutCell
  | .mquick => mo.quickPuttCell

/-- Attempts of a session as `get_career_stats` counts them. -/
def sessionAttempts (s : SessionRow) : ℕ :=
  s.total_makes.getD 0 + s.total_misses.getD 0

/-- `s_accuracy = (s_makes / (s_makes + s_misses)) * 100`. -/
def sessionAccuracyPct (s : SessionRow) : ℚ :=
  ((s.total_makes.getD 0 : ℚ) /
    ((s.total_makes.getD 0 : ℚ) + (s.total_misses.getD 0 : ℚ))) * 100

/-- A session with two makes whose three JSON fields are all
absent/unparsable. -/
def brokenSession : SessionRow :=
  { emptySession with total_makes := some 2, total_misses := some 0 }

/-- A classifier that never emits an attempt (used for concrete runs). -/
def noClassify : Unit → Frame → Unit × Option String := fun _ _ => ((), none)

/-! ## Theorems -/

theorem puttClassUpper_wf (p : JValue) (h : wfPutt p = true) :
    puttClassUpper p = .ok (classUpperOf p) := by
  cases p with
  | jobj fields =>
      cases hg : jsonGet fields "Putt Classification" with
      | none => simp [puttClassUpper, classUpperOf, hg]; rfl
      | some v =>
          cases v with
          | jstr s => simp [puttClassUpper, classUpperOf, hg]
          | jnull => simp [wfPutt, hg] at h
          | jbool b => simp [wfPutt, hg] at h
          | jnum q => simp [wfPutt, hg] at h
          | jarr xs => simp [wfPutt, hg] at h
          | jobj f2 => simp [wfPutt, hg] at h
  | jnull => simp [wfPutt] at h
  | jbool b => simp [wfPutt] at h
  | jnum q => simp [wfPutt] at h
  | jstr s => simp [wfPutt] at h
  | jarr xs => simp [wfPutt] at h

theorem collectStreaks_ok (putts : List JValue) (cur : ℕ)
    (h : ∀ p ∈ putts, wfPutt p = true) :
    collectStreaks putts cur = .ok (runsPure (putts.map makeFlag) cur) := by
  induction putts generalizing cur with
  | nil => rfl
  | cons p rest ih =>
      have hp := puttClassUpper_wf p (h p (List.mem_cons_self ..))
      have hrest : ∀ q ∈ rest, wfPutt q = true := fun q hq => h q (List.mem_cons_of_mem _ hq)
      have hbind : ∀ {α β : Type} (a : α) (f : α → Except PyErr β),
          (Except.ok a >>= f) = f a := fun a f => rfl
      rw [collectStreaks, hp, hbind, List.map_cons, runsPure]
      by_cases hmk : classUpperOf p = "MAKE"
      · rw [if_pos hmk, ih (cur + 1) hrest]
        have : makeFlag p = true := by simp [makeFlag, hmk]
        rw [this, if_pos rfl]
      · rw [if_neg hmk, ih 0 hrest, hbind]
        have : makeFlag p = false := by simp [makeFlag, hmk]
        rw [this]
        simp

theorem runsPure_eq (flags : List Bool) (cur : ℕ) :
    runsPure flags cur =
      (((flags.splitOnP fun b => !b).modifyHead
          (List.replicate cur true ++ ·)).map List.length).filter fun n => 0 < n := by
  induction flags generalizing cur with
  | nil =>
      rw [runsPure, List.splitOnP_nil]
      by_cases hcur : 0 < cur <;> simp [hcur]
  | cons b rest ih =>
      cases b with
      | true =>
          have hsplit : (true :: rest).splitOnP (fun b => !b) =
              (rest.splitOnP (fun b => !b)).modifyHead (List.cons true) := by
            simp [List.splitOnP_cons]
          have hfun : (fun x => List.replicate (cur + 1) true ++ x) =
              ((fun x => List.replicate cur true ++ x) ∘ List.cons true) := by
            funext g
            simp [Function.comp, List.replicate_succ', List.append_assoc]
          rw [runsPure, if_pos rfl, ih (cur + 1), hsplit, List.modifyHead_modifyHead, hfun]
      | false =>
          have hsplit : (false :: rest).splitOnP (fun b => !b) =
              [] :: rest.splitOnP (fun b => !b) := by
            simp [List.splitOnP_cons]
          have hid : (List.splitOnP (fun b => !b) rest).modifyHead
              (fun x => List.replicate 0 true ++ x) = List.splitOnP (fun b => !b) rest := by
            cases List.splitOnP (fun b => !b) rest <;> simp
          rw [runsPure, if_neg (by simp), ih 0, hid, hsplit]
          simp only [List.modifyHead_cons, List.map_cons, List.filter_cons,
            List.length_append, List.length_replicate, List.length_nil]
          by_cases hcur : 0 < cur
          · simp [hcur]
          · simp only [Nat.not_lt, Nat.le_zero] at hcur
            simp [hcur]

theorem runsPure_zero (flags : List Bool) : runsPure flags 0 = runsSpec flags := by
  rw [runsPure_eq, runsSpec]
  have hid : (List.splitOnP (fun b => !b) flags).modifyHead
      (fun x => List.replicate 0 true ++ x) = List.splitOnP (fun b => !b) flags := by
    cases List.splitOnP (fun b => !b) flags <;> simp
  rw [hid]

theorem foldl_bump (streak : ℕ) (cs : List ℕ) (counts : List (String × ℕ)) :
    cs.foldl (fun acc c => if c ≤ streak then bumpKey acc (toString c) (streak / c) else acc)
        counts =
      counts.map fun kv => (kv.1, kv.2 +
        ((cs.filter fun c => decide (toString c = kv.1) && decide (c ≤ streak)).map
          fun c => streak / c).sum) := by
  induction cs generalizing counts with
  | nil => simp
  | cons c cs ih =>
      rw [List.foldl_cons]
      by_cases hc : c ≤ streak
      · rw [if_pos hc, ih, bumpKey, List.map_map]
        congr 1
        funext kv
        by_cases hk : kv.1 = toString c
        · have hd : (decide (toString c = kv.1) && decide (c ≤ streak)) = true := by
            simp [← hk, hc]
          simp [Function.comp, if_pos hk, List.filter_cons, hd, Nat.add_assoc]
        · have hd : (decide (toString c = kv.1) && decide (c ≤ streak)) = false := by
            have hne : ¬ (toString c = kv.1) := fun habs => hk habs.symm
            simp [hne]
          simp [Function.comp, if_neg hk, List.filter_cons, hd]
      · rw [if_neg hc, ih]
        congr 1
        funext kv
        have hd : (decide (toString c = kv.1) && decide (c ≤ streak)) = false := by
          simp [hc]
        simp [List.filter_cons, hd]

theorem foldl_addStreakCounts (streaks : List ℕ) (counts : List (String × ℕ)) :
    streaks.foldl addStreakCounts counts =
      counts.map fun kv => (kv.1, kv.2 + (streaks.map fun L =>
        ((streakCategories.filter fun c => decide (toString c = kv.1) && decide (c ≤ L)).map
          fun c => L / c).sum).sum) := by
  induction streaks generalizing counts with
  | nil => simp
  | cons L Ls ih =>
      rw [List.foldl_cons, addStreakCounts, foldl_bump, ih, List.map_map]
      congr 1
      funext kv
      simp [Function.comp, Nat.add_assoc]

theorem sum_map_ite (l : List ℕ) (c : ℕ) (f : ℕ → ℕ) :
    (l.map fun x => if c ≤ x then f x else 0).sum =
      ((l.filter fun x => c ≤ x).map f).sum := by
  induction l with
  | nil => rfl
  | cons x xs ih =>
      by_cases hx : c ≤ x
      · simp [hx, ih]
      · simp [hx, ih]

theorem filter_categories_eq (c : ℕ) (hc : c ∈ streakCategories) (L : ℕ) :
    (streakCategories.filter fun x => decide (toString x = toString c) && decide (x ≤ L)) =
      if c ≤ L then [c] else [] := by
  fin_cases hc <;> simp +decide [streakCategories, List.filter_cons]

theorem bindExceptOk {α β : Type} (a : α) (f : α → Except PyErr β) :
    (Except.ok a >>= f) = f a := rfl

theorem map_fst_of_same_key {α β : Type} (l : List (α × β)) (f : α × β → β) :
    ((l.map fun kv => (kv.1, f kv)).map Prod.fst) = l.map Prod.fst := by
  induction l with
  | nil => rfl
  | cons kv rest ih => simp [ih]

/-- C1: for every putt list, `calculate_consecutive_streaks` produces, for
each threshold `T` in `{3,7,10,15,21,50,100}`, the sum over every maximal
run of consecutive MAKE classifications of length `L` with `T ≤ L` of
`⌊L / T⌋`. -/
theorem calculate_consecutive_streaks_correct (putts : List JValue)
    (h : ∀ p ∈ putts, wfPutt p = true) :
    calculate_consecutive_streaks (.parsed (.jarr putts)) =
      .ok (streakCategories.map fun c =>
        (toString c,
          (((runsSpec (putts.map makeFlag)).filter fun L => c ≤ L).map
            fun L => L / c).sum)) := by
  rw [calculate_consecutive_streaks]
  rw [show pyIter (.jarr putts) = .ok putts from rfl, bindExceptOk,
    collectStreaks_ok _ _ h, bindExceptOk, runsPure_zero, foldl_addStreakCounts,
    initStreakCounts, List.map_map]
  congr 1
  apply List.map_congr_left
  intro c hc
  simp only [Function.comp]
  congr 1
  rw [Nat.zero_add]
  have hinner : ∀ L : ℕ,
      ((streakCategories.filter fun x =>
          decide (toString x = toString c) && decide (x ≤ L)).map fun x => L / x).sum =
        if c ≤ L then L / c else 0 := by
    intro L
    rw [filter_categories_eq c hc L]
    by_cases hcl : c ≤ L <;> simp [hcl]
  rw [List.map_congr_left fun L _ => hinner L, sum_map_ite]

/-- Witness for C1: a single streak of length 21 yields counts
`{3 ↦ 7, 7 ↦ 3, 10 ↦ 2, 15 ↦ 1, 21 ↦ 1, 50 ↦ 0, 100 ↦ 0}`. -/
theorem calculate_consecutive_streaks_correct_witness :
    (∀ p ∈ putts21, wfPutt p = true) ∧
      calculate_consecutive_streaks (.parsed (.jarr putts21)) =
        .ok [("3", 7), ("7", 3), ("10", 2), ("15", 1), ("21", 1), ("50", 0), ("100", 0)] := by
  refine ⟨by decide, ?_⟩
  rw [calculate_consecutive_streaks_correct putts21 (by decide)]
  rfl

/-- C10 counterexample: on valid JSON that is a list containing a
non-object (`[1]`), the function raises `AttributeError` (from `.get` on an
int) instead of returning a dictionary, so "for every input … returns
without raising" is false. -/
theorem calculate_consecutive_streaks_raises_on_nonobject :
    calculate_consecutive_streaks (.parsed (.jarr [.jnum 1])) =
      .error .attributeError := rfl

/-- C10 (amended): for `None`, the empty string, malformed JSON, and JSON
arrays of objects whose `Putt Classification` values are strings when
present (in particular entries missing the key), the function returns —
without raising — a dictionary whose keys are exactly
`"3","7","10","15","21","50","100"`; falsy or unparsable input yields
all-zero counts; and the MAKE comparison is case-insensitive (the result
only depends on the uppercased classifications). -/
theorem calculate_consecutive_streaks_total_on_wf :
    (calculate_consecutive_streaks .falsy = .ok initStreakCounts) ∧
    (calculate_consecutive_streaks .badJson = .ok initStreakCounts) ∧
    (initStreakCounts.map Prod.fst = ["3", "7", "10", "15", "21", "50", "100"]) ∧
    (∀ kv ∈ initStreakCounts, kv.2 = 0) ∧
    (∀ putts : List JValue, (∀ p ∈ putts, wfPutt p = true) →
      ∃ counts, calculate_consecutive_streaks (.parsed (.jarr putts)) = .ok counts ∧
        counts.map Prod.fst = ["3", "7", "10", "15", "21", "50", "100"]) ∧
    (∀ putts₁ putts₂ : List JValue, (∀ p ∈ putts₁, wfPutt p = true) →
      (∀ p ∈ putts₂, wfPutt p = true) →
      putts₁.map makeFlag = putts₂.map makeFlag →
      calculate_consecutive_streaks (.parsed (.jarr putts₁)) =
        calculate_consecutive_streaks (.parsed (.jarr putts₂))) := by
  refine ⟨rfl, rfl, by decide, by decide, ?_, ?_⟩
  · intro putts h
    refine ⟨(runsSpec (putts.map makeFlag)).foldl addStreakCounts initStreakCounts, ?_, ?_⟩
    · rw [calculate_consecutive_streaks,
        show pyIter (.jarr putts) = .ok putts from rfl, bindExceptOk,
        collectStreaks_ok _ _ h, bindExceptOk, runsPure_zero]
    · rw [foldl_addStreakCounts]
      refine (map_fst_of_same_key _ _).trans ?_
      decide
  · intro putts₁ putts₂ h1 h2 hflags
    rw [calculate_consecutive_streaks, calculate_consecutive_streaks,
      show pyIter (.jarr putts₁) = .ok putts₁ from rfl,
      show pyIter (.jarr putts₂) = .ok putts₂ from rfl, bindExceptOk, bindExceptOk,
      collectStreaks_ok _ _ h1, collectStreaks_ok _ _ h2, hflags]

/-- Witness for C10: a lower-case `"make"` classification is processed
exactly like `"MAKE"`, and the result carries the seven threshold keys. -/
theorem calculate_consecutive_streaks_total_on_wf_witness :
    calculate_consecutive_streaks
        (.parsed (.jarr [.jobj [("Putt Classification", .jstr "make")]])) =
      calculate_consecutive_streaks
        (.parsed (.jarr [.jobj [("Putt Classification", .jstr "MAKE")]])) :=
  calculate_consecutive_streaks_total_on_wf.2.2.2.2.2 _ _
    (by decide) (by decide) (by decide)

/-! ### Per-field behaviour of one `get_career_stats` loop iteration -/

theorem careerStep_high_makes (a : CareerAcc) (s : SessionRow) :
    (careerStep a s).high_makes = max a.high_makes (s.total_makes.getD 0) := by
  unfold careerStep
  by_cases h : 0 < s.total_makes.getD 0 + s.total_misses.getD 0 <;>
    cases s.makes_by_category <;> cases s.misses_by_category <;>
    cases s.putt_list <;> simp [h]

theorem careerStep_high_ppm (a : CareerAcc) (s : SessionRow) :
    (careerStep a s).high_ppm = max a.high_ppm (s.putts_per_minute.getD 0) := by
  unfold careerStep
  by_cases h : 0 < s.total_makes.getD 0 + s.total_misses.getD 0 <;>
    cases s.makes_by_category <;> cases s.misses_by_category <;>
    cases s.putt_list <;> simp [h]

theorem careerStep_high_mpm (a : CareerAcc) (s : SessionRow) :
    (careerStep a s).high_mpm = max a.high_mpm (s.makes_per_minute.getD 0) := by
  unfold careerStep
  by_cases h : 0 < s.total_makes.getD 0 + s.total_misses.getD 0 <;>
    cases s.makes_by_category <;> cases s.misses_by_category <;>
    cases s.putt_list <;> simp [h]

theorem careerStep_high_most_in_60 (a : CareerAcc) (s : SessionRow) :
    (careerStep a s).high_most_in_60 =
      max a.high_most_in_60 (s.most_makes_in_60_seconds.getD 0) := by
  unfold careerStep
  by_cases h : 0 < s.total_makes.getD 0 + s.total_misses.getD 0 <;>
    cases s.makes_by_category <;> cases s.misses_by_category <;>
    cases s.putt_list <;> simp [h]

theorem careerStep_high_duration (a : CareerAcc) (s : SessionRow) :
    (careerStep a s).high_duration = max a.high_duration (s.session_duration.getD 0) := by
  unfold careerStep
  by_cases h : 0 < s.total_makes.getD 0 + s.total_misses.getD 0 <;>
    cases s.makes_by_category <;> cases s.misses_by_category <;>
    cases s.putt_list <;> simp [h]

theorem careerStep_total_duration (a : CareerAcc) (s : SessionRow) :
    (careerStep a s).total_duration = a.total_duration + s.session_duration.getD 0 := by
  unfold careerStep
  by_cases h : 0 < s.total_makes.getD 0 + s.total_misses.getD 0 <;>
    cases s.makes_by_category <;> cases s.misses_by_category <;>
    cases s.putt_list <;> simp [h]

theorem careerStep_high_accuracy (a : CareerAcc) (s : SessionRow) :
    (careerStep a s).high_accuracy =
      if 0 < sessionAttempts s then max a.high_accuracy (sessionAccuracyPct s)
      else a.high_accuracy := by
  unfold careerStep sessionAttempts sessionAccuracyPct
  by_cases h : 0 < s.total_makes.getD 0 + s.total_misses.getD 0 <;>
    cases s.makes_by_category <;> cases s.misses_by_category <;>
    cases s.putt_list <;> simp [h]

theorem careerStep_misses_overview (a : CareerAcc) (s : SessionRow) :
    (careerStep a s).misses_overview =
      match s.misses_by_category with
      | none => a.misses_overview
      | some m => m.foldl (fun mo (kv : String × ℚ) => updMissesOverview mo kv.1 kv.2)
          a.misses_overview := by
  unfold careerStep
  by_cases h : 0 < s.total_makes.getD 0 + s.total_misses.getD 0 <;>
    cases s.makes_by_category <;> cases s.misses_by_category <;>
    cases s.putt_list <;> simp [h]

theorem careerStep_misses_detailed (a : CareerAcc) (s : SessionRow) :
    (careerStep a s).misses_detailed =
      match s.putt_list with
      | none => a.misses_detailed
      | some pl => aggSessionMisses pl a.misses_detailed := by
  unfold careerStep
  by_cases h : 0 < s.total_makes.getD 0 + s.total_misses.getD 0 <;>
    cases s.makes_by_category <;> cases s.misses_by_category <;>
    cases s.putt_list <;> simp [h]

theorem careerStep_makes (a : CareerAcc) (s : SessionRow) :
    ((careerStep a s).makes_detailed, (careerStep a s).makes_overview) =
      match s.makes_by_category with
      | none => (a.makes_detailed, a.makes_overview)
      | some m => aggSessionMakes m a.makes_detailed a.makes_overview := by
  unfold careerStep
  by_cases h : 0 < s.total_makes.getD 0 + s.total_misses.getD 0 <;>
    cases s.makes_by_category <;> cases s.misses_by_category <;>
    cases s.putt_list <;> simp [h]

/-! ### Folding the whole session list -/

theorem fold_total_duration (sessions : List SessionRow) (a : CareerAcc) :
    (sessions.foldl careerStep a).total_duration =
      a.total_duration + (sessions.map fun s => s.session_duration.getD 0).sum := by
  induction sessions generalizing a with
  | nil => simp
  | cons s rest ih =>
      rw [List.foldl_cons, ih, careerStep_total_duration, List.map_cons, List.sum_cons,
        add_assoc]

theorem fold_high_makes (sessions : List SessionRow) (a : CareerAcc) :
    (sessions.foldl careerStep a).high_makes =
      (sessions.map fun s => s.total_makes.getD 0).foldl max a.high_makes := by
  induction sessions generalizing a with
  | nil => rfl
  | cons s rest ih =>
      rw [List.foldl_cons, ih, careerStep_high_makes, List.map_cons, List.foldl_cons]

theorem fold_high_ppm (sessions : List SessionRow) (a : CareerAcc) :
    (sessions.foldl careerStep a).high_ppm =
      (sessions.map fun s => s.putts_per_minute.getD 0).foldl max a.high_ppm := by
  induction sessions generalizing a with
  | nil => rfl
  | cons s rest ih =>
      rw [List.foldl_cons, ih, careerStep_high_ppm, List.map_cons, List.foldl_cons]

theorem fold_high_mpm (sessions : List SessionRow) (a : CareerAcc) :
    (sessions.foldl careerStep a).high_mpm =
      (sessions.map fun s => s.makes_per_minute.getD 0).foldl max a.high_mpm := by
  induction sessions generalizing a with
  | nil => rfl
  | cons s rest ih =>
      rw [List.foldl_cons, ih, careerStep_high_mpm, List.map_cons, List.foldl_cons]

theorem fold_high_duration (sessions : List SessionRow) (a : CareerAcc) :
    (sessions.foldl careerStep a).high_duration =
      (sessions.map fun s => s.session_duration.getD 0).foldl max a.high_duration := by
  induction sessions generalizing a with
  | nil => rfl
  | cons s rest ih =>
      rw [List.foldl_cons, ih, careerStep_high_duration, List.map_cons, List.foldl_cons]

theorem fold_high_most_in_60 (sessions : List SessionRow) (a : CareerAcc) :
    (sessions.foldl careerStep a).high_most_in_60 =
      (sessions.map fun s => s.most_makes_in_60_seconds.getD 0).foldl max
        a.high_most_in_60 := by
  induction sessions generalizing a with
  | nil => rfl
  | cons s rest ih =>
      rw [List.foldl_cons, ih, careerStep_high_most_in_60, List.map_cons, List.foldl_cons]

theorem fold_high_accuracy (sessions : List SessionRow) (a : CareerAcc) :
    (sessions.foldl careerStep a).high_accuracy =
      ((sessions.filter fun s => decide (0 < sessionAttempts s)).map
        sessionAccuracyPct).foldl max a.high_accuracy := by
  induction sessions generalizing a with
  | nil => rfl
  | cons s rest ih =>
      rw [List.foldl_cons, ih, careerStep_high_accuracy, List.filter_cons]
      by_cases h : 0 < sessionAttempts s
      · simp only [h, if_pos, decide_eq_true h, List.map_cons, List.foldl_cons]
        rfl
      · simp only [h, if_neg, decide_eq_false h]
        rfl

theorem fold_misses_detailed (sessions : List SessionRow) (a : CareerAcc) :
    (sessions.foldl careerStep a).misses_detailed =
      (sessions.filterMap fun s => s.putt_list).foldl
        (fun d pl => aggSessionMisses pl d) a.misses_detailed := by
  induction sessions generalizing a with
  | nil => rfl
  | cons s rest ih =>
      rw [List.foldl_cons, ih, careerStep_misses_detailed]
      cases h : s.putt_list with
      | none => rw [List.filterMap_cons, h]
      | some pl => rw [List.filterMap_cons, h, List.foldl_cons]

theorem fold_misses_overview (sessions : List SessionRow) (a : CareerAcc) :
    (sessions.foldl careerStep a).misses_overview =
      (sessions.filterMap fun s => s.misses_by_category).foldl
        (fun mo m => m.foldl (fun mo (kv : String × ℚ) => updMissesOverview mo kv.1 kv.2) mo)
        a.misses_overview := by
  induction sessions generalizing a with
  | nil => rfl
  | cons s rest ih =>
      rw [List.foldl_cons, ih, careerStep_misses_overview]
      cases h : s.misses_by_category with
      | none => rw [List.filterMap_cons, h]
      | some m => rw [List.filterMap_cons, h, List.foldl_cons]

theorem fold_makes (sessions : List SessionRow) (a : CareerAcc) :
    ((sessions.foldl careerStep a).makes_detailed,
        (sessions.foldl careerStep a).makes_overview) =
      (sessions.filterMap fun s => s.makes_by_category).foldl
        (fun p m => aggSessionMakes m p.1 p.2) (a.makes_detailed, a.makes_overview) := by
  induction sessions generalizing a with
  | nil => rfl
  | cons s rest ih =>
      rw [List.foldl_cons, ih, careerStep_makes]
      cases h : s.makes_by_category with
      | none => rw [List.filterMap_cons, h]
      | some m => rw [List.filterMap_cons, h, List.foldl_cons]

/-! ### Generic fold-max / fold-min facts -/

theorem foldl_max_pull {α : Type} [LinearOrder α] (l : List α) (a v : α) :
    l.foldl max (max a v) = max (l.foldl max a) v := by
  induction l generalizing a with
  | nil => rfl
  | cons x xs ih =>
      rw [List.foldl_cons, List.foldl_cons, sup_right_comm a v x, ih]

theorem foldl_max_middle {α : Type} [LinearOrder α] (pre post : List α) (v a : α) :
    (pre ++ v :: post).foldl max a = max ((pre ++ post).foldl max a) v := by
  induction pre generalizing a with
  | nil =>
      rw [List.nil_append, List.nil_append, List.foldl_cons, foldl_max_pull]
  | cons x xs ih =>
      rw [List.cons_append, List.foldl_cons, ih, List.cons_append, List.foldl_cons]

theorem init_le_foldl_max {α : Type} [LinearOrder α] (l : List α) (a : α) :
    a ≤ l.foldl max a := by
  induction l generalizing a with
  | nil => exact le_refl _
  | cons x xs ih =>
      rw [List.foldl_cons]
      exact le_trans (le_max_left a x) (ih _)

theorem le_foldl_max {α : Type} [LinearOrder α] (l : List α) (a : α) :
    ∀ x ∈ l, x ≤ l.foldl max a := by
  induction l generalizing a with
  | nil => intro x hx; cases hx
  | cons y ys ih =>
      intro x hx
      rw [List.foldl_cons]
      rcases List.mem_cons.mp hx with rfl | hmem
      · exact le_trans (le_max_right a x) (init_le_foldl_max ys _)
      · exact ih _ x hmem

theorem foldl_max_mem {α : Type} [LinearOrder α] (l : List α) (a : α) :
    l.foldl max a = a ∨ l.foldl max a ∈ l := by
  induction l generalizing a with
  | nil => exact Or.inl rfl
  | cons x xs ih =>
      rw [List.foldl_cons]
      rcases ih (max a x) with h | h
      · rcases max_cases a x with ⟨heq, _⟩ | ⟨heq, _⟩
        · exact Or.inl (h.trans heq)
        · exact Or.inr (by rw [h, heq]; exact List.mem_cons_self ..)
      · exact Or.inr (List.mem_cons_of_mem _ h)

theorem foldl_min_le {α : Type} [LinearOrder α] (l : List α) (a : α) :
    l.foldl min a ≤ a ∧ ∀ x ∈ l, l.foldl min a ≤ x := by
  induction l generalizing a with
  | nil => exact ⟨le_refl _, fun x hx => absurd hx (List.not_mem_nil x)⟩
  | cons y ys ih =>
      rw [List.foldl_cons]
      refine ⟨le_trans (ih (min a y)).1 (min_le_left a y), ?_⟩
      intro x hx
      rcases List.mem_cons.mp hx with rfl | hmem
      · exact le_trans (ih (min a x)).1 (min_le_right a x)
      · exact (ih (min a y)).2 x hmem

theorem foldl_min_mem {α : Type} [LinearOrder α] (l : List α) (a : α) :
    l.foldl min a = a ∨ l.foldl min a ∈ l := by
  induction l generalizing a with
  | nil => exact Or.inl rfl
  | cons x xs ih =>
      rw [List.foldl_cons]
      rcases ih (min a x) with h | h
      · rcases min_cases a x with ⟨heq, _⟩ | ⟨heq, _⟩
        · exact Or.inl (h.trans heq)
        · exact Or.inr (by rw [h, heq]; exact List.mem_cons_self ..)
      · exact Or.inr (List.mem_cons_of_mem _ h)

/-! ### The misses-overview cells and the low sentinel -/

theorem pymin_ne_inf (a : PyFloat) (b : ℚ) : a.pymin b ≠ .inf := by
  cases a <;> simp [PyFloat.pymin]

theorem overviewCell_upd (mo : MissesOverview) (cat : String) (count : ℚ) (mc : MissCat) :
    overviewCell (updMissesOverview mo cat count) mc =
      if cat = missCatKey mc then bumpMissCell (overviewCell mo mc) count
      else overviewCell mo mc := by
  cases mc <;> unfold updMissesOverview overviewCell missCatKey <;>
    split_ifs <;> simp_all

theorem overview_items_low (m : List (String × ℚ)) (mo : MissesOverview) (mc : MissCat) :
    (overviewCell
        (m.foldl (fun mo (kv : String × ℚ) => updMissesOverview mo kv.1 kv.2) mo)
        mc).low = .inf ↔
      ((overviewCell mo mc).low = .inf ∧ missCatKey mc ∉ m.map Prod.fst) := by
  induction m generalizing mo with
  | nil => simp
  | cons kv rest ih =>
      rw [List.foldl_cons, ih, overviewCell_upd]
      by_cases hk : kv.1 = missCatKey mc
      · rw [if_pos hk]
        simp only [bumpMissCell]
        have : (overviewCell mo mc).low.pymin kv.2 ≠ .inf := pymin_ne_inf _ _
        simp [this, hk.symm]
      · rw [if_neg hk]
        have : missCatKey mc ≠ kv.1 := fun habs => hk habs.symm
        simp [this]

theorem overview_sessions_low (ms : List (List (String × ℚ))) (mo : MissesOverview)
    (mc : MissCat) :
    (overviewCell
        (ms.foldl (fun mo m =>
          m.foldl (fun mo (kv : String × ℚ) => updMissesOverview mo kv.1 kv.2) mo) mo)
        mc).low = .inf ↔
      ((overviewCell mo mc).low = .inf ∧ ∀ m ∈ ms, missCatKey mc ∉ m.map Prod.fst) := by
  induction ms generalizing mo with
  | nil => simp
  | cons m rest ih =>
      rw [List.foldl_cons, ih, overview_items_low]
      constructor
      · rintro ⟨⟨h1, h2⟩, h3⟩
        exact ⟨h1, fun m' hm' => by
          rcases List.mem_cons.mp hm' with rfl | hmem
          · exact h2
          · exact h3 m' hmem⟩
      · rintro ⟨h1, h2⟩
        exact ⟨⟨h1, h2 m (List.mem_cons_self ..)⟩,
          fun m' hm' => h2 m' (List.mem_cons_of_mem _ hm')⟩

/-- Every value of a dict stays in `P` if it starts there and every update
lands in `P`. -/
theorem dictUpd_preserve {β : Type} (P : β → Prop) (m : List (String × β)) (k : String)
    (dflt : β) (f : β → β) (hf : ∀ b, P (f b)) (hm : ∀ kv ∈ m, P kv.2) :
    ∀ kv ∈ dictUpd m k dflt f, P kv.2 := by
  intro kv hkv
  unfold dictUpd at hkv
  by_cases hany : m.any fun kv => decide (kv.1 = k)
  · rw [if_pos hany] at hkv
    rcases List.mem_map.mp hkv with ⟨kv', hkv', heq⟩
    by_cases hk : kv'.1 = k
    · rw [if_pos hk] at heq
      rw [← heq]
      exact hf _
    · rw [if_neg hk] at heq
      rw [← heq]
      exact hm _ hkv'
  · rw [if_neg hany] at hkv
    rcases List.mem_append.mp hkv with h | h
    · exact hm _ h
    · rcases List.mem_singleton.mp h with rfl
      exact hf _

theorem aggSessionMisses_low_ne_inf (pl : List PuttRec) (d : List (String × MissCellQ))
    (hd : ∀ kv ∈ d, kv.2.low ≠ .inf) :
    ∀ kv ∈ aggSessionMisses pl d, kv.2.low ≠ .inf := by
  unfold aggSessionMisses
  generalize sessionMissCounts pl = counts
  induction counts generalizing d with
  | nil => exact hd
  | cons kv rest ih =>
      rw [List.foldl_cons]
      exact ih _ (dictUpd_preserve (fun c : MissCellQ => c.low ≠ PyFloat.inf) _ _ _ _
        (fun b => pymin_ne_inf b.low _) hd)

theorem misses_detailed_low_ne_inf (sessions : List SessionRow) :
    ∀ kv ∈ (sessions.foldl careerStep initCareerAcc).misses_detailed,
      kv.2.low ≠ .inf := by
  rw [fold_misses_detailed]
  generalize (sessions.filterMap fun s => s.putt_list) = pls
  have hstart : ∀ kv ∈ initCareerAcc.misses_detailed, kv.2.low ≠ PyFloat.inf := by
    intro kv hkv
    cases hkv
  generalize initCareerAcc.misses_detailed = d0 at hstart
  induction pls generalizing d0 with
  | nil => exact hstart
  | cons pl rest ih =>
      rw [List.foldl_cons]
      exact ih _ (aggSessionMisses_low_ne_inf pl d0 hstart)

/-- C2 counterexample: a stored session whose `misses_by_category` parses
to `{"RETURN": 0}` gives the RETURN category `low = 0`, not the explicit
null the claim requires for a subtype that never occurred with a non-zero
count. -/
theorem career_low_zero_count_counterexample :
    (computeCareerStats 1 examplePlayerInfo none [zeroReturnSession] []
        []).misses_overview.returnCell.low = some (PyFloat.fin 0) ∧
      some (PyFloat.fin 0) ≠ (none : Option PyFloat) := by
  refine ⟨rfl, ?_⟩
  simp

theorem overviewCellOut_cleanup (mo : MissesOverview) (mc : MissCat) :
    overviewCellOut (cleanupOverview mo) mc = cleanupCell (overviewCell mo mc) := by
  cases mc <;> rfl

theorem overviewCell_init (mc : MissCat) :
    overviewCell initMissesOverview mc = initMissCell := by
  cases mc <;> rfl

/-- C2 (amended): in the summary returned by `get_career_stats`, a
misses-overview category's `low` is null exactly when the category never
appears — with any count, zero included — in a session's parsable
`misses_by_category`; no `low` field (overview or detailed) ever carries
the `float('inf')` sentinel, and every `misses_detailed` entry has a
finite `low`. -/
theorem get_career_stats_low_sentinel (pid : ℕ) (info : PlayerInfo)
    (stats : Option PlayerStatsRow) (sessions : List SessionRow)
    (duels leagues : List String) :
    (∀ mc : MissCat,
      (overviewCellOut
          (computeCareerStats pid info stats sessions duels leagues).misses_overview
          mc).low = none ↔
        ∀ s ∈ sessions, ∀ m, s.misses_by_category = some m →
          missCatKey mc ∉ m.map Prod.fst) ∧
    (∀ mc : MissCat,
      (overviewCellOut
          (computeCareerStats pid info stats sessions duels leagues).misses_overview
          mc).low ≠ some PyFloat.inf) ∧
    (∀ kv ∈ (computeCareerStats pid info stats sessions duels leagues).misses_detailed,
      ∃ q : ℚ, kv.2.low = some (PyFloat.fin q)) := by
  have hmo : (computeCareerStats pid info stats sessions duels leagues).misses_overview =
      cleanupOverview (sessions.foldl careerStep initCareerAcc).misses_overview := rfl
  have hmd : (computeCareerStats pid info stats sessions duels leagues).misses_detailed =
      (sessions.foldl careerStep initCareerAcc).misses_detailed.map
        fun kv => (kv.1, cleanupCell kv.2) := rfl
  have hinf : ∀ mc : MissCat,
      (overviewCell (sessions.foldl careerStep initCareerAcc).misses_overview
        mc).low = .inf ↔
        ∀ s ∈ sessions, ∀ m, s.misses_by_category = some m →
          missCatKey mc ∉ m.map Prod.fst := by
    intro mc
    rw [fold_misses_overview, overview_sessions_low]
    rw [show initCareerAcc.misses_overview = initMissesOverview from rfl, overviewCell_init]
    simp only [initMissCell, true_and]
    constructor
    · intro h s hs m hm
      exact h m (List.mem_filterMap.mpr ⟨s, hs, hm⟩)
    · intro h m hm
      rcases List.mem_filterMap.mp hm with ⟨s, hs, hsm⟩
      exact h s hs m hsm
  refine ⟨?_, ?_, ?_⟩
  · intro mc
    rw [hmo, overviewCellOut_cleanup]
    simp only [cleanupCell]
    by_cases hcase : (overviewCell (sessions.foldl careerStep initCareerAcc).misses_overview
        mc).low = .inf
    · rw [if_pos hcase]
      exact iff_of_true rfl ((hinf mc).mp hcase)
    · rw [if_neg hcase]
      exact iff_of_false (by simp) fun habs => hcase ((hinf mc).mpr habs)
  · intro mc
    rw [hmo, overviewCellOut_cleanup]
    simp only [cleanupCell]
    by_cases hcase : (overviewCell (sessions.foldl careerStep initCareerAcc).misses_overview
        mc).low = .inf
    · rw [if_pos hcase]
      simp
    · rw [if_neg hcase]
      intro habs
      exact hcase (Option.some_injective _ habs)
  · intro kv hkv
    rw [hmd] at hkv
    rcases List.mem_map.mp hkv with ⟨kv', hkv', rfl⟩
    have hne := misses_detailed_low_ne_inf sessions kv' hkv'
    cases hlow : kv'.2.low with
    | inf => exact absurd hlow hne
    | fin q =>
        refine ⟨q, ?_⟩
        simp [cleanupCell, hlow]

/-- Witness for the amended C2: with the `{"RETURN": 0}` session stored,
the CATCH category — which never appears — serializes its `low` as null. -/
theorem get_career_stats_low_sentinel_witness :
    (overviewCellOut
        (computeCareerStats 1 examplePlayerInfo none [zeroReturnSession] []
          []).misses_overview MissCat.mcatch).low = none := by
  refine ((get_career_stats_low_sentinel 1 examplePlayerInfo none [zeroReturnSession]
    [] []).1 MissCat.mcatch).mpr ?_
  intro s hs m hm
  rcases List.mem_singleton.mp hs with rfl
  rw [show zeroReturnSession.misses_by_category = some [("RETURN", (0 : ℚ))] from rfl] at hm
  cases hm
  decide

/-- C3: with a positive total duration, and player-stats lifetime counters
that agree with the per-session sums (the invariant
`recalculate_player_stats` maintains), `avg_ppm` is total attempts over
total minutes and `avg_mpm` is total makes over total minutes — totals
across all sessions, not averages of per-session rates. -/
theorem get_career_stats_avg_rates (pid : ℕ) (info : PlayerInfo) (ps : PlayerStatsRow)
    (sessions : List SessionRow) (duels leagues : List String)
    (hdur : 0 < (sessions.map fun s => s.session_duration.getD 0).sum)
    (hm : ps.total_makes = (sessions.map fun s => s.total_makes.getD 0).sum)
    (hmiss : ps.total_misses = (sessions.map fun s => s.total_misses.getD 0).sum) :
    (computeCareerStats pid info (some ps) sessions duels leagues).avg_ppm =
        (((sessions.map fun s => s.total_makes.getD 0).sum +
            (sessions.map fun s => s.total_misses.getD 0).sum : ℕ) : ℚ) /
          ((sessions.map fun s => s.session_duration.getD 0).sum / 60) ∧
      (computeCareerStats pid info (some ps) sessions duels leagues).avg_mpm =
        (((sessions.map fun s => s.total_makes.getD 0).sum : ℕ) : ℚ) /
          ((sessions.map fun s => s.session_duration.getD 0).sum / 60) := by
  have hacc : (sessions.foldl careerStep initCareerAcc).total_duration =
      (sessions.map fun s => s.session_duration.getD 0).sum := by
    rw [fold_total_duration]
    rw [show initCareerAcc.total_duration = 0 from rfl, zero_add]
  have h1 : (computeCareerStats pid info (some ps) sessions duels leagues).avg_ppm =
      if 0 < (sessions.foldl careerStep initCareerAcc).total_duration then
        ((ps.total_makes + ps.total_misses : ℕ) : ℚ) /
          ((sessions.foldl careerStep initCareerAcc).total_duration / 60)
      else 0 := rfl
  have h2 : (computeCareerStats pid info (some ps) sessions duels leagues).avg_mpm =
      if 0 < (sessions.foldl careerStep initCareerAcc).total_duration then
        ((ps.total_makes : ℕ) : ℚ) /
          ((sessions.foldl careerStep initCareerAcc).total_duration / 60)
      else 0 := rfl
  rw [h1, h2, hacc, if_pos hdur, if_pos hdur, hm, hmiss]
  exact ⟨rfl, rfl⟩

/-- Witness for C3: sessions with makes {10, 15} and durations
{300 s, 300 s} give `avg_mpm = 25 / (600/60) = 5/2` and
`avg_ppm = 5/2`. -/
theorem get_career_stats_avg_rates_witness :
    (computeCareerStats 1 examplePlayerInfo (some examplePlayerStats)
        [exampleSessionA, exampleSessionB] [] []).avg_mpm = 5 / 2 := by
  have h := (get_career_stats_avg_rates 1 examplePlayerInfo examplePlayerStats
    [exampleSessionA, exampleSessionB] [] []
    (by simp [exampleSessionA, exampleSessionB, emptySession])
    (by simp [examplePlayerStats, exampleSessionA, exampleSessionB, emptySession])
    (by simp [examplePlayerStats, exampleSessionA, exampleSessionB, emptySession])).2
  rw [h]
  simp [exampleSessionA, exampleSessionB, emptySession]
  norm_num

/-- C6 counterexample: one session with 1 make and 1 miss yields
`high_accuracy = 50` (a percentage), not `1/2 = makes ÷ (makes+misses)` as
the claim states. -/
theorem career_accuracy_percent_counterexample :
    (computeCareerStats 1 examplePlayerInfo none [oneOneSession] []
        []).high_accuracy = 50 ∧ (50 : ℚ) ≠ 1 / 2 := by
  constructor
  · rw [show (computeCareerStats 1 examplePlayerInfo none [oneOneSession] []
          []).high_accuracy =
        ([oneOneSession].foldl careerStep initCareerAcc).high_accuracy from rfl,
      fold_high_accuracy]
    have hone : (0 : ℕ) < sessionAttempts oneOneSession := by decide
    rw [List.filter_cons, if_pos (by simpa using hone)]
    have hpct : sessionAccuracyPct oneOneSession = 50 := by
      simp [sessionAccuracyPct, oneOneSession, emptySession]
      norm_num
    rw [List.filter_nil, List.map_cons, List.map_nil, hpct, List.foldl_cons,
      List.foldl_nil, show initCareerAcc.high_accuracy = 0 from rfl]
    exact max_eq_right (by norm_num)
  · norm_num

/-- C6 (amended): a session's accuracy is the percentage
`(makes ÷ (makes + misses)) · 100`; `high_accuracy` is the maximum of
these over the sessions with at least one attempt (0 when there is none),
and a zero-attempt session is excluded from the comparison rather than
contributing 0. -/
theorem career_high_accuracy_spec (pid : ℕ) (info : PlayerInfo)
    (stats : Option PlayerStatsRow) (sessions : List SessionRow)
    (duels leagues : List String) :
    ((computeCareerStats pid info stats sessions duels leagues).high_accuracy =
      ((sessions.filter fun s => decide (0 < sessionAttempts s)).map
        sessionAccuracyPct).foldl max 0) ∧
    ∀ s : SessionRow, sessionAttempts s = 0 →
      (computeCareerStats pid info stats (sessions ++ [s]) duels leagues).high_accuracy =
        (computeCareerStats pid info stats sessions duels leagues).high_accuracy := by
  have hproj : ∀ sess : List SessionRow,
      (computeCareerStats pid info stats sess duels leagues).high_accuracy =
        (sess.foldl careerStep initCareerAcc).high_accuracy := fun _ => rfl
  constructor
  · rw [hproj, fold_high_accuracy, show initCareerAcc.high_accuracy = 0 from rfl]
  · intro s hs
    rw [hproj, hproj, fold_high_accuracy, fold_high_accuracy, List.filter_append]
    have hnil : ([s].filter fun s => decide (0 < sessionAttempts s)) = [] := by
      simp [List.filter_cons, hs]
    rw [hnil, List.append_nil]

/-- Witness for the amended C6: appending an attempt-less session leaves
the accuracy high-water mark unchanged. -/
theorem career_high_accuracy_spec_witness :
    (computeCareerStats 1 examplePlayerInfo none ([oneOneSession] ++ [emptySession])
        [] []).high_accuracy =
      (computeCareerStats 1 examplePlayerInfo none [oneOneSession] []
        []).high_accuracy :=
  (career_high_accuracy_spec 1 examplePlayerInfo none [oneOneSession] [] []).2
    emptySession (by decide)

/-- C7: a session whose JSON field is malformed (`none` in the model, the
outcome of the caught `json.loads` failure) contributes nothing to that
field only — the career maps are those of the remaining sessions — while
all of its scalar fields (high-makes, duration sums, rate maxima,
accuracy) are still counted; the aggregation pass itself is total, it
never aborts. -/
theorem career_skips_broken_fields (pid : ℕ) (info : PlayerInfo)
    (stats : Option PlayerStatsRow) (pre post : List SessionRow) (s : SessionRow)
    (duels leagues : List String) :
    ((s.putt_list = none →
      (computeCareerStats pid info stats (pre ++ s :: post) duels
          leagues).misses_detailed =
        (computeCareerStats pid info stats (pre ++ post) duels
          leagues).misses_detailed) ∧
     (s.misses_by_category = none →
      (computeCareerStats pid info stats (pre ++ s :: post) duels
          leagues).misses_overview =
        (computeCareerStats pid info stats (pre ++ post) duels
          leagues).misses_overview) ∧
     (s.makes_by_category = none →
      (computeCareerStats pid info stats (pre ++ s :: post) duels
          leagues).makes_detailed =
        (computeCareerStats pid info stats (pre ++ post) duels
          leagues).makes_detailed ∧
      (computeCareerStats pid info stats (pre ++ s :: post) duels
          leagues).makes_overview =
        (computeCareerStats pid info stats (pre ++ post) duels
          leagues).makes_overview)) ∧
    (computeCareerStats pid info stats (pre ++ s :: post) duels leagues).high_makes =
      max (computeCareerStats pid info stats (pre ++ post) duels leagues).high_makes
        (s.total_makes.getD 0) ∧
    (computeCareerStats pid info stats (pre ++ s :: post) duels leagues).sum_duration =
      (computeCareerStats pid info stats (pre ++ post) duels leagues).sum_duration +
        s.session_duration.getD 0 ∧
    (computeCareerStats pid info stats (pre ++ s :: post) duels leagues).high_ppm =
      max (computeCareerStats pid info stats (pre ++ post) duels leagues).high_ppm
        (s.putts_per_minute.getD 0) ∧
    (computeCareerStats pid info stats (pre ++ s :: post) duels leagues).high_mpm =
      max (computeCareerStats pid info stats (pre ++ post) duels leagues).high_mpm
        (s.makes_per_minute.getD 0) ∧
    (computeCareerStats pid info stats (pre ++ s :: post) duels leagues).high_duration =
      max (computeCareerStats pid info stats (pre ++ post) duels leagues).high_duration
        (s.session_duration.getD 0) ∧
    (computeCareerStats pid info stats (pre ++ s :: post) duels
        leagues).high_most_in_60 =
      max (computeCareerStats pid info stats (pre ++ post) duels
          leagues).high_most_in_60
        (s.most_makes_in_60_seconds.getD 0) ∧
    (0 < sessionAttempts s →
      (computeCareerStats pid info stats (pre ++ s :: post) duels
          leagues).high_accuracy =
        max (computeCareerStats pid info stats (pre ++ post) duels
            leagues).high_accuracy (sessionAccuracyPct s)) := by
  refine ⟨⟨?_, ?_, ?_⟩, ?_, ?_, ?_, ?_, ?_, ?_, ?_⟩
  · intro h
    rw [show ∀ l, (computeCareerStats pid info stats l duels leagues).misses_detailed =
        ((l.foldl careerStep initCareerAcc).misses_detailed.map
          fun kv => (kv.1, cleanupCell kv.2)) from fun _ => rfl,
      show ∀ l, (computeCareerStats pid info stats l duels leagues).misses_detailed =
        ((l.foldl careerStep initCareerAcc).misses_detailed.map
          fun kv => (kv.1, cleanupCell kv.2)) from fun _ => rfl,
      fold_misses_detailed, fold_misses_detailed, List.filterMap_append,
      List.filterMap_append, List.filterMap_cons_none h]
  · intro h
    rw [show ∀ l, (computeCareerStats pid info stats l duels leagues).misses_overview =
        cleanupOverview (l.foldl careerStep initCareerAcc).misses_overview from
        fun _ => rfl,
      show ∀ l, (computeCareerStats pid info stats l duels leagues).misses_overview =
        cleanupOverview (l.foldl careerStep initCareerAcc).misses_overview from
        fun _ => rfl,
      fold_misses_overview, fold_misses_overview, List.filterMap_append,
      List.filterMap_append, List.filterMap_cons_none h]
  · intro h
    have hpair := fold_makes (pre ++ s :: post) initCareerAcc
    have hpair2 := fold_makes (pre ++ post) initCareerAcc
    rw [List.filterMap_append, List.filterMap_cons_none h, ← List.filterMap_append]
      at hpair
    rw [← hpair2] at hpair
    exact ⟨congrArg Prod.fst hpair, congrArg Prod.snd hpair⟩
  · rw [show ∀ l, (computeCareerStats pid info stats l duels leagues).high_makes =
        (l.foldl careerStep initCareerAcc).high_makes from fun _ => rfl,
      show ∀ l, (computeCareerStats pid info stats l duels leagues).high_makes =
        (l.foldl careerStep initCareerAcc).high_makes from fun _ => rfl,
      fold_high_makes, fold_high_makes, List.map_append, List.map_cons,
      foldl_max_middle, List.map_append]
  · rw [show ∀ l, (computeCareerStats pid info stats l duels leagues).sum_duration =
        (l.foldl careerStep initCareerAcc).total_duration from fun _ => rfl,
      show ∀ l, (computeCareerStats pid info stats l duels leagues).sum_duration =
        (l.foldl careerStep initCareerAcc).total_duration from fun _ => rfl,
      fold_total_duration, fold_total_duration, List.map_append, List.map_cons,
      List.sum_append, List.sum_cons, List.map_append, List.sum_append]
    ring
  · rw [show ∀ l, (computeCareerStats pid info stats l duels leagues).high_ppm =
        (l.foldl careerStep initCareerAcc).high_ppm from fun _ => rfl,
      show ∀ l, (computeCareerStats pid info stats l duels leagues).high_ppm =
        (l.foldl careerStep initCareerAcc).high_ppm from fun _ => rfl,
      fold_high_ppm, fold_high_ppm, List.map_append, List.map_cons,
      foldl_max_middle, List.map_append]
  · rw [show ∀ l, (computeCareerStats pid info stats l duels leagues).high_mpm =
        (l.foldl careerStep initCareerAcc).high_mpm from fun _ => rfl,
      show ∀ l, (computeCareerStats pid info stats l duels leagues).high_mpm =
        (l.foldl careerStep initCareerAcc).high_mpm from fun _ => rfl,
      fold_high_mpm, fold_high_mpm, List.map_append, List.map_cons,
      foldl_max_middle, List.map_append]
  · rw [show ∀ l, (computeCareerStats pid info stats l duels leagues).high_duration =
        (l.foldl careerStep initCareerAcc).high_duration from fun _ => rfl,
      show ∀ l, (computeCareerStats pid info stats l duels leagues).high_duration =
        (l.foldl careerStep initCareerAcc).high_duration from fun _ => rfl,
      fold_high_duration, fold_high_duration, List.map_append, List.map_cons,
      foldl_max_middle, List.map_append]
  · rw [show ∀ l, (computeCareerStats pid info stats l duels leagues).high_most_in_60 =
        (l.foldl careerStep initCareerAcc).high_most_in_60 from fun _ => rfl,
      show ∀ l, (computeCareerStats pid info stats l duels leagues).high_most_in_60 =
        (l.foldl careerStep initCareerAcc).high_most_in_60 from fun _ => rfl,
      fold_high_most_in_60, fold_high_most_in_60, List.map_append, List.map_cons,
      foldl_max_middle, List.map_append]
  · intro h
    rw [show ∀ l, (computeCareerStats pid info stats l duels leagues).high_accuracy =
        (l.foldl careerStep initCareerAcc).high_accuracy from fun _ => rfl,
      show ∀ l, (computeCareerStats pid info stats l duels leagues).high_accuracy =
        (l.foldl careerStep initCareerAcc).high_accuracy from fun _ => rfl,
      fold_high_accuracy, fold_high_accuracy, List.filter_append, List.filter_cons,
      if_pos (by simpa using h), List.map_append, List.map_cons, foldl_max_middle,
      List.filter_append, List.map_append]

/-- Witness for C7: a session with unparsable category data adds nothing
to `misses_detailed` but its makes still count toward `high_makes`. -/
theorem career_skips_broken_fields_witness :
    (computeCareerStats 1 examplePlayerInfo none ([oneOneSession] ++ brokenSession :: [])
        [] []).misses_detailed =
      (computeCareerStats 1 examplePlayerInfo none ([oneOneSession] ++ [])
        [] []).misses_detailed ∧
    (computeCareerStats 1 examplePlayerInfo none ([oneOneSession] ++ brokenSession :: [])
        [] []).high_makes =
      max (computeCareerStats 1 examplePlayerInfo none ([oneOneSession] ++ [])
        [] []).high_makes (brokenSession.total_makes.getD 0) := by
  have h := career_skips_broken_fields 1 examplePlayerInfo none [oneOneSession] []
    brokenSession [] []
  exact ⟨h.1.1 rfl, h.2.1⟩

/-- C9: `get_career_stats` is pure and deterministic over its materialized
input — the database state is unchanged (its body only reads), and the
returned summary depends only on the player's stored rows, so two runs
over equal stored data return equal summaries. -/
theorem get_career_stats_pure (db₁ db₂ : DBState) (pid : ℕ)
    (hinfo : db₁.player_info pid = db₂.player_info pid)
    (hstats : db₁.player_stats pid = db₂.player_stats pid)
    (hsess : db₁.sessions pid = db₂.sessions pid)
    (hduel : db₁.duel_statuses pid = db₂.duel_statuses pid)
    (hleague : db₁.league_statuses pid = db₂.league_statuses pid) :
    (get_career_stats_run db₁ pid).1 = db₁ ∧
      (get_career_stats_run db₁ pid).2 = (get_career_stats_run db₂ pid).2 := by
  refine ⟨rfl, ?_⟩
  show get_career_stats db₁ pid = get_career_stats db₂ pid
  unfold get_career_stats
  rw [hinfo, hstats, hsess, hduel, hleague]

/-- Witness for C9: two runs on the same stored data coincide and leave
the state untouched. -/
theorem get_career_stats_pure_witness :
    (get_career_stats_run exampleDB 1).1 = exampleDB ∧
      (get_career_stats_run exampleDB 1).2 = (get_career_stats_run exampleDB 1).2 :=
  get_career_stats_pure exampleDB exampleDB 1 rfl rfl rfl rfl rfl

/-! ### recalculate_player_stats -/

theorem listMinQ_eq_none_iff (l : List ℚ) : listMinQ l = none ↔ l = [] := by
  cases l <;> simp [listMinQ]

theorem listMinQ_spec (l : List ℚ) (v : ℚ) (h : listMinQ l = some v) :
    v ∈ l ∧ ∀ w ∈ l, v ≤ w := by
  cases l with
  | nil => cases h
  | cons x xs =>
      rw [listMinQ] at h
      injection h with h
      subst h
      constructor
      · rcases foldl_min_mem xs x with h | h
        · rw [h]
          exact List.mem_cons_self ..
        · exact List.mem_cons_of_mem _ h
      · intro w hw
        rcases List.mem_cons.mp hw with rfl | hmem
        · exact (foldl_min_le xs w).1
        · exact (foldl_min_le xs x).2 w hmem

/-- C4: after `recalculate_player_stats`, the stored lifetime stats are a
full recomputation over the player's completed sessions — plain sums of
the non-null makes/misses, the maximum session `best_streak` (0 if none),
and the minimum non-null `fastest_21_makes` (null when no session has
one); and `update_session` stores `fastest_21_makes` as null exactly when
the reporter's value is the `float('inf')` sentinel. -/
theorem recalculate_player_stats_correct (db : DBState) (pid : ℕ)
    (old : PlayerStatsRow) (hold : db.player_stats pid = some old) :
    (∃ new, (recalculate_player_stats db pid).player_stats pid = some new ∧
      new.total_makes = (((db.sessions pid).filter fun s =>
          decide (s.status = "completed")).filterMap fun s => s.total_makes).sum ∧
      new.total_misses = (((db.sessions pid).filter fun s =>
          decide (s.status = "completed")).filterMap fun s => s.total_misses).sum ∧
      (∀ b ∈ ((db.sessions pid).filter fun s =>
          decide (s.status = "completed")).filterMap fun s => s.best_streak,
        b ≤ new.best_streak) ∧
      (new.best_streak = 0 ∨ new.best_streak ∈ ((db.sessions pid).filter fun s =>
          decide (s.status = "completed")).filterMap fun s => s.best_streak) ∧
      (new.fastest_21_makes = none ↔ (((db.sessions pid).filter fun s =>
          decide (s.status = "completed")).filterMap fun s => s.fastest_21_makes) = []) ∧
      (∀ v, new.fastest_21_makes = some v →
        v ∈ (((db.sessions pid).filter fun s =>
          decide (s.status = "completed")).filterMap fun s => s.fastest_21_makes) ∧
        ∀ w ∈ ((db.sessions pid).filter fun s =>
          decide (s.status = "completed")).filterMap fun s => s.fastest_21_makes,
          v ≤ w)) ∧
    update_session_fastest .inf = none ∧
    (∀ q : ℚ, update_session_fastest (.fin q) = some q) := by
  have hnew : (recalculate_player_stats db pid).player_stats pid =
      some { old with
        total_makes := (((db.sessions pid).filter fun s =>
          decide (s.status = "completed")).filterMap fun s => s.total_makes).sum,
        total_misses := (((db.sessions pid).filter fun s =>
          decide (s.status = "completed")).filterMap fun s => s.total_misses).sum,
        best_streak := (((db.sessions pid).filter fun s =>
          decide (s.status = "completed")).filterMap fun s => s.best_streak).foldl max 0,
        fastest_21_makes := listMinQ (((db.sessions pid).filter fun s =>
          decide (s.status = "completed")).filterMap fun s => s.fastest_21_makes) } := by
    show (if pid = pid then (db.player_stats pid).map _ else db.player_stats pid) = _
    rw [if_pos rfl, hold]
    rfl
  refine ⟨⟨_, hnew, rfl, rfl, ?_, ?_, ?_, ?_⟩, rfl, fun q => rfl⟩
  · exact fun b hb => le_foldl_max _ 0 b hb
  · exact (foldl_max_mem _ 0).symm.imp id id |>.symm.imp id id
  · exact listMinQ_eq_none_iff _
  · exact fun v hv => listMinQ_spec _ v hv

/-- Witness for C4: recomputation over the example database's two
completed sessions stores `total_makes = 25`, and the reporter sentinel
maps to null. -/
theorem recalculate_player_stats_correct_witness :
    (∃ new, (recalculate_player_stats exampleDB 1).player_stats 1 = some new ∧
      new.total_makes = (((exampleDB.sessions 1).filter fun s =>
        decide (s.status = "completed")).filterMap fun s => s.total_makes).sum) ∧
    update_session_fastest .inf = none ∧
    (((exampleDB.sessions 1).filter fun s =>
      decide (s.status = "completed")).filterMap fun s => s.total_makes).sum = 25 := by
  have h := recalculate_player_stats_correct exampleDB 1 examplePlayerStats rfl
  obtain ⟨⟨new, hnew, hm, -⟩, hinf, -⟩ := h
  refine ⟨⟨new, hnew, hm⟩, hinf, ?_⟩
  decide

/-! ### The main tracking loop -/

theorem tally_submittedTimes {σ : Type} (st : LoopState σ) (t : ℚ) (cls : Option String) :
    (tallyClassification st t cls).submittedTimes = st.submittedTimes := by
  cases cls with
  | none => rfl
  | some c =>
      simp only [tallyClassification]
      split_ifs <;> rfl

theorem tally_stopped {σ : Type} (st : LoopState σ) (t : ℚ) (cls : Option String) :
    (tallyClassification st t cls).stopped = st.stopped := by
  cases cls with
  | none => rfl
  | some c =>
      simp only [tallyClassification]
      split_ifs <;> rfl

theorem tally_frameCount {σ : Type} (st : LoopState σ) (t : ℚ) (cls : Option String) :
    (tallyClassification st t cls).frameCount = st.frameCount := by
  cases cls with
  | none => rfl
  | some c =>
      simp only [tallyClassification]
      split_ifs <;> rfl

theorem tally_talliedTimes {σ : Type} (st : LoopState σ) (t : ℚ) (cls : Option String) :
    (tallyClassification st t cls).talliedTimes = st.talliedTimes ∨
      (tallyClassification st t cls).talliedTimes = st.talliedTimes ++ [t] := by
  cases cls with
  | none => exact Or.inl rfl
  | some c =>
      simp only [tallyClassification]
      split_ifs <;> first
        | exact Or.inl rfl
        | exact Or.inr rfl

theorem tally_counts {σ : Type} (st : LoopState σ) (t : ℚ) (cls : Option String) :
    (tallyClassification st t cls).total_makes +
        (tallyClassification st t cls).total_misses ≤
      st.total_makes + st.total_misses + 1 := by
  cases cls with
  | none => exact Nat.le_succ _
  | some c =>
      simp only [tallyClassification]
      split_ifs <;> simp <;> omega

/-- `loopStep` when the loop has already stopped: a no-op. -/
theorem loopStep_stopped {σ : Type} (classify : σ → Frame → σ × Option String)
    (limit : Option ℚ) (st : LoopState σ) (f : Frame) (hstop : st.stopped = true) :
    loopStep classify limit st f = st := by
  unfold loopStep
  rw [if_pos hstop]

/-- `loopStep` on the frame that reaches the limit: the frame is counted
and submitted, then `break` fires — its classification is never
tallied. -/
theorem loopStep_limit_case {σ : Type} (classify : σ → Frame → σ × Option String)
    (L : ℚ) (st : LoopState σ) (f : Frame) (hstop : st.stopped = false)
    (hlim : limitHit (some L) f.t = true) :
    loopStep classify (some L) st f =
      { st with
        cstate := (classify st.cstate f).1,
        frameCount := st.frameCount + 1,
        submittedTimes := st.submittedTimes ++ [f.t],
        stopped := true } := by
  unfold loopStep
  rw [if_neg (by simp [hstop]), if_pos hlim]

/-- `loopStep` on a frame strictly below the limit: the frame is counted,
submitted, and its classification tallied. -/
theorem loopStep_go_case {σ : Type} (classify : σ → Frame → σ × Option String)
    (limit : Option ℚ) (st : LoopState σ) (f : Frame) (hstop : st.stopped = false)
    (hlim : limitHit limit f.t = false) :
    loopStep classify limit st f =
      tallyClassification
        { st with
          cstate := (classify st.cstate f).1,
          frameCount := st.frameCount + 1,
          submittedTimes := st.submittedTimes ++ [f.t] }
        f.t (classify st.cstate f).2 := by
  unfold loopStep
  rw [if_neg (by simp [hstop]), if_neg (by simp [hlim])]

/-- The invariant behind the amended C5: before the limit has fired every
submitted sample is strictly below the limit; in any state all but the
last submitted sample are below the limit, and every tallied sample is
below the limit. -/
theorem loopStep_limit_inv {σ : Type} (classify : σ → Frame → σ × Option String)
    (L : ℚ) (st : LoopState σ) (f : Frame)
    (h : (st.stopped = false → ∀ t ∈ st.submittedTimes, t < L) ∧
      (∀ t ∈ st.submittedTimes.dropLast, t < L) ∧
      (∀ t ∈ st.talliedTimes, t < L)) :
    ((loopStep classify (some L) st f).stopped = false →
      ∀ t ∈ (loopStep classify (some L) st f).submittedTimes, t < L) ∧
    (∀ t ∈ (loopStep classify (some L) st f).submittedTimes.dropLast, t < L) ∧
    (∀ t ∈ (loopStep classify (some L) st f).talliedTimes, t < L) := by
  obtain ⟨h1, h2, h3⟩ := h
  by_cases hstop : st.stopped
  · rw [loopStep_stopped classify (some L) st f hstop]
    exact ⟨h1, h2, h3⟩
  · simp only [Bool.not_eq_true] at hstop
    by_cases hlim : limitHit (some L) f.t
    · rw [loopStep_limit_case classify L st f hstop hlim]
      refine ⟨fun habs => absurd habs (by simp), ?_, h3⟩
      intro t ht
      have ht' : t ∈ (st.submittedTimes ++ [f.t]).dropLast := ht
      rw [show (st.submittedTimes ++ [f.t]).dropLast = st.submittedTimes by simp] at ht'
      exact h1 hstop t ht'
    · have hlim' : limitHit (some L) f.t = false := by
        simpa using hlim
      rw [loopStep_go_case classify (some L) st f hstop hlim']
      have hflt : f.t < L := by
        unfold limitHit at hlim'
        simpa using hlim'
      have hsub : ∀ t ∈ st.submittedTimes ++ [f.t], t < L := by
        intro t ht
        rcases List.mem_append.mp ht with hmem | hmem
        · exact h1 hstop t hmem
        · rcases List.mem_singleton.mp hmem with rfl
          exact hflt
      refine ⟨?_, ?_, ?_⟩
      · intro _ t ht
        rw [tally_submittedTimes] at ht
        exact hsub t ht
      · intro t ht
        rw [tally_submittedTimes] at ht
        exact hsub t (List.dropLast_subset _ ht)
      · intro t ht
        rcases tally_talliedTimes
            { st with
              cstate := (classify st.cstate f).1,
              frameCount := st.frameCount + 1,
              submittedTimes := st.submittedTimes ++ [f.t] }
            f.t (classify st.cstate f).2 with heq | heq
        · rw [heq] at ht
          exact h3 t ht
        · rw [heq] at ht
          rcases List.mem_append.mp ht with hmem | hmem
          · exact h3 t hmem
          · rcases List.mem_singleton.mp hmem with rfl
            exact hflt

/-- C5 counterexample: with a 10-second limit and frames at session times
0 and 10, the sample at time 10 — at the limit — IS submitted to the
classifier, because the loop checks the limit only after
`update_and_classify` runs.  So "no sample whose elapsed time is at or
past the limit is submitted" is false. -/
theorem tracker_submits_limit_sample :
    (runTrackerLoop noClassify (some 10) [⟨0⟩, ⟨10⟩] ()).submittedTimes = [0, 10] ∧
      ¬ ((10 : ℚ) < 10) := by
  constructor
  · have h1 : limitHit (some 10) (0 : ℚ) = false := by
      simp [limitHit]
    have h2 : limitHit (some 10) (10 : ℚ) = true := by
      simp [limitHit]
    rw [runTrackerLoop, List.foldl_cons,
      loopStep_go_case noClassify (some 10) _ _ rfl h1, List.foldl_cons]
    rw [show tallyClassification
        { initLoopState () with
          cstate := (noClassify (initLoopState ()).cstate ⟨0⟩).1,
          frameCount := (initLoopState ()).frameCount + 1,
          submittedTimes := (initLoopState ()).submittedTimes ++ [(0 : ℚ)] }
        (0 : ℚ) (noClassify (initLoopState ()).cstate ⟨0⟩).2 =
        { initLoopState () with
          cstate := (),
          frameCount := 1,
          submittedTimes := [(0 : ℚ)] } from rfl]
    rw [loopStep_limit_case noClassify 10 _ _ rfl h2, List.foldl_nil]
    rfl
  · simp

/-- C5 (amended): the loop may submit to the classifier exactly the one
sample on which the limit is first detected (the check runs after
classification): every submitted sample except possibly the last is
strictly below the limit, while the loop is still live every submitted
sample is strictly below the limit, and every tallied attempt comes from a
sample strictly below the limit — the limit-hitting sample's
classification is discarded and the session finalizes with any mid-trace
attempt abandoned. -/
theorem tracker_limit_behaviour {σ : Type} (classify : σ → Frame → σ × Option String)
    (L : ℚ) (frames : List Frame) (s0 : σ) :
    (∀ t ∈ (runTrackerLoop classify (some L) frames s0).submittedTimes.dropLast,
      t < L) ∧
    (∀ t ∈ (runTrackerLoop classify (some L) frames s0).talliedTimes, t < L) ∧
    ((runTrackerLoop classify (some L) frames s0).stopped = false →
      ∀ t ∈ (runTrackerLoop classify (some L) frames s0).submittedTimes, t < L) := by
  have hmain : ((runTrackerLoop classify (some L) frames s0).stopped = false →
      ∀ t ∈ (runTrackerLoop classify (some L) frames s0).submittedTimes, t < L) ∧
      (∀ t ∈ (runTrackerLoop classify (some L) frames s0).submittedTimes.dropLast,
        t < L) ∧
      (∀ t ∈ (runTrackerLoop classify (some L) frames s0).talliedTimes, t < L) := by
    rw [runTrackerLoop]
    have hbase : ((initLoopState s0 : LoopState σ).stopped = false →
        ∀ t ∈ (initLoopState s0 : LoopState σ).submittedTimes, t < L) ∧
        (∀ t ∈ (initLoopState s0 : LoopState σ).submittedTimes.dropLast, t < L) ∧
        (∀ t ∈ (initLoopState s0 : LoopState σ).talliedTimes, t < L) := by
      refine ⟨fun _ t ht => absurd ht (List.not_mem_nil t), ?_, ?_⟩
      · intro t ht
        exact absurd ht (by simp [initLoopState])
      · intro t ht
        exact absurd ht (List.not_mem_nil t)
    generalize initLoopState s0 = st at hbase ⊢
    induction frames generalizing st with
    | nil => exact hbase
    | cons f rest ih =>
        rw [List.foldl_cons]
        exact ih _ (loopStep_limit_inv classify L st f hbase)
  exact ⟨hmain.2.1, hmain.2.2, hmain.1⟩

/-- Witness for the amended C5: in the two-frame run hitting the limit at
time 10, the sample at time 0 is below the limit. -/
theorem tracker_limit_behaviour_witness :
    (0 : ℚ) ∈ (runTrackerLoop noClassify (some 10) [⟨0⟩, ⟨10⟩] ()).submittedTimes.dropLast ∧
      (0 : ℚ) < 10 := by
  have hmem : (0 : ℚ) ∈
      (runTrackerLoop noClassify (some 10) [⟨0⟩, ⟨10⟩] ()).submittedTimes.dropLast := by
    have h1 : limitHit (some 10) (0 : ℚ) = false := by
      simp [limitHit]
    have h2 : limitHit (some 10) (10 : ℚ) = true := by
      simp [limitHit]
    rw [runTrackerLoop, List.foldl_cons,
      loopStep_go_case noClassify (some 10) _ _ rfl h1, List.foldl_cons]
    rw [show tallyClassification
        { initLoopState () with
          cstate := (noClassify (initLoopState ()).cstate ⟨0⟩).1,
          frameCount := (initLoopState ()).frameCount + 1,
          submittedTimes := (initLoopState ()).submittedTimes ++ [(0 : ℚ)] }
        (0 : ℚ) (noClassify (initLoopState ()).cstate ⟨0⟩).2 =
        { initLoopState () with
          cstate := (),
          frameCount := 1,
          submittedTimes := [(0 : ℚ)] } from rfl]
    rw [loopStep_limit_case noClassify 10 _ _ rfl h2, List.foldl_nil]
    simp
  exact ⟨hmem,
    (tracker_limit_behaviour noClassify 10 [⟨0⟩, ⟨10⟩] ()).1 0 hmem⟩

theorem tally_total_counts_frame {σ : Type} (st : LoopState σ) (t : ℚ)
    (cls : Option String) :
    (tallyClassification st t cls).frameCount = st.frameCount ∧
      (tallyClassification st t cls).submittedTimes = st.submittedTimes ∧
      (tallyClassification st t cls).total_makes +
          (tallyClassification st t cls).total_misses ≤
        st.total_makes + st.total_misses + 1 :=
  ⟨tally_frameCount .., tally_submittedTimes .., tally_counts ..⟩

/-- The invariant behind C8: attempts tallied never exceed frames
processed, and the classifier is invoked exactly once per processed
frame. -/
theorem loopStep_count_inv {σ : Type} (classify : σ → Frame → σ × Option String)
    (limit : Option ℚ) (st : LoopState σ) (f : Frame)
    (h : st.total_makes + st.total_misses ≤ st.frameCount ∧
      st.submittedTimes.length = st.frameCount) :
    (loopStep classify limit st f).total_makes +
        (loopStep classify limit st f).total_misses ≤
      (loopStep classify limit st f).frameCount ∧
      (loopStep classify limit st f).submittedTimes.length =
        (loopStep classify limit st f).frameCount := by
  obtain ⟨h1, h2⟩ := h
  by_cases hstop : st.stopped
  · rw [loopStep_stopped classify limit st f hstop]
    exact ⟨h1, h2⟩
  · simp only [Bool.not_eq_true] at hstop
    by_cases hlim : limitHit limit f.t
    · rcases limit with _ | L
      · cases hlim
      · rw [loopStep_limit_case classify L st f hstop hlim]
        refine ⟨?_, ?_⟩
        · show st.total_makes + st.total_misses ≤ st.frameCount + 1
          omega
        · show (st.submittedTimes ++ [f.t]).length = st.frameCount + 1
          rw [List.length_append, h2]
          rfl
    · have hlim' : limitHit limit f.t = false := by simpa using hlim
      rw [loopStep_go_case classify limit st f hstop hlim']
      obtain ⟨hf, hs, hc⟩ := tally_total_counts_frame
        { st with
          cstate := (classify st.cstate f).1,
          frameCount := st.frameCount + 1,
          submittedTimes := st.submittedTimes ++ [f.t] }
        f.t (classify st.cstate f).2
      constructor
      · rw [hf]
        refine le_trans hc ?_
        show st.total_makes + st.total_misses + 1 ≤ st.frameCount + 1
        omega
      · rw [hf, hs]
        show (st.submittedTimes ++ [f.t]).length = st.frameCount + 1
        rw [List.length_append, h2]
        rfl

theorem loopStep_frameCount_le {σ : Type} (classify : σ → Frame → σ × Option String)
    (limit : Option ℚ) (st : LoopState σ) (f : Frame) :
    (loopStep classify limit st f).frameCount ≤ st.frameCount + 1 := by
  by_cases hstop : st.stopped
  · rw [loopStep_stopped classify limit st f hstop]
    omega
  · simp only [Bool.not_eq_true] at hstop
    by_cases hlim : limitHit limit f.t
    · rcases limit with _ | L
      · cases hlim
      · rw [loopStep_limit_case classify L st f hstop hlim]
    · have hlim' : limitHit limit f.t = false := by simpa using hlim
      rw [loopStep_go_case classify limit st f hstop hlim', tally_frameCount]

/-- C8: in the per-frame loop, each iteration consumes one frame and
invokes the classifier at most once, and the make/miss totals grow by at
most one per frame, so `total_makes + total_misses` never exceeds the
number of frames processed, which never exceeds the frames available;
moreover the classifier is invoked exactly once per processed frame. -/
theorem tracker_attempts_le_frames {σ : Type} (classify : σ → Frame → σ × Option String)
    (limit : Option ℚ) (frames : List Frame) (s0 : σ) :
    (runTrackerLoop classify limit frames s0).total_makes +
        (runTrackerLoop classify limit frames s0).total_misses ≤
      (runTrackerLoop classify limit frames s0).frameCount ∧
    (runTrackerLoop classify limit frames s0).frameCount ≤ frames.length ∧
    (runTrackerLoop classify limit frames s0).submittedTimes.length =
      (runTrackerLoop classify limit frames s0).frameCount := by
  rw [runTrackerLoop]
  have hbase : (initLoopState s0 : LoopState σ).total_makes +
        (initLoopState s0 : LoopState σ).total_misses ≤
      (initLoopState s0 : LoopState σ).frameCount ∧
      (initLoopState s0 : LoopState σ).submittedTimes.length =
        (initLoopState s0 : LoopState σ).frameCount := by
    exact ⟨le_refl _, rfl⟩
  have hcount : ∀ (fl : List Frame) (st : LoopState σ),
      (st.total_makes + st.total_misses ≤ st.frameCount ∧
        st.submittedTimes.length = st.frameCount) →
      ((fl.foldl (loopStep classify limit) st).total_makes +
          (fl.foldl (loopStep classify limit) st).total_misses ≤
        (fl.foldl (loopStep classify limit) st).frameCount ∧
        (fl.foldl (loopStep classify limit) st).submittedTimes.length =
          (fl.foldl (loopStep classify limit) st).frameCount) := by
    intro fl
    induction fl with
    | nil => exact fun st h => h
    | cons f rest ih =>
        intro st h
        rw [List.foldl_cons]
        exact ih _ (loopStep_count_inv classify limit st f h)
  have hframes : ∀ (fl : List Frame) (st : LoopState σ),
      (fl.foldl (loopStep classify limit) st).frameCount ≤ st.frameCount + fl.length := by
    intro fl
    induction fl with
    | nil => exact fun st => le_refl _
    | cons f rest ih =>
        intro st
        rw [List.foldl_cons]
        refine le_trans (ih _) ?_
        have := loopStep_frameCount_le classify limit st f
        simp only [List.length_cons]
        omega
  obtain ⟨hc1, hc2⟩ := hcount frames (initLoopState s0) hbase
  refine ⟨hc1, ?_, hc2⟩
  have := hframes frames (initLoopState s0)
  simpa [initLoopState] using this

/-- Witness for C8 at a concrete two-frame run. -/
theorem tracker_attempts_le_frames_witness :
    (runTrackerLoop noClassify none [⟨0⟩, ⟨1⟩] ()).total_makes +
        (runTrackerLoop noClassify none [⟨0⟩, ⟨1⟩] ()).total_misses ≤
      (runTrackerLoop noClassify none [⟨0⟩, ⟨1⟩] ()).frameCount :=
  (tracker_attempts_le_frames noClassify none [⟨0⟩, ⟨1⟩] ()).1
